import Mathlib

/-!
Verification model of the version-diff matching engine in
`compare_mapping.py` (crawl_law_data).

The Python code is embedded shallowly:

* strings are `String` / `List Char`; Python `None` for text arguments is
  `Option String`;
* the similarity matrix produced by the TF-IDF / cosine step (an external
  library computation) is abstracted as a function `ℕ → ℕ → ℚ`; similarity
  scores and thresholds are rational numbers (`0.35 = 7/20`, `0.60 = 3/5`,
  `0.75 = 3/4`);
* Python `dict`s (insertion ordered) become association lists built in
  insertion order; Python `set`s, used only for membership tests, become
  lists with `∈`;
* Python's stable `list.sort(key=..., reverse=True)` becomes a stable
  descending insertion sort (`List.insertionSort` with the "greater or
  equal key goes first" relation), which is extensionally the same
  function;
* each synthesized changelog record additionally carries the source list
  index (`oldIdx` / `newIdx`) it was built from, mirroring exactly the loop
  variable of the Python code at the corresponding construction site; the
  JSON payload fields are kept verbatim.
-/

/-! ### Text normalization (`normalize_for_compare`, `normalize_for_output`) -/

/-- Python whitespace class `\s` restricted to its ASCII members (space,
tab, newline, carriage return, vertical tab, form feed), which is also the
set stripped by `str.strip()` on the texts at hand; stated on code
points. -/
def pyIsSpace (c : Char) : Bool :=
  c.toNat = 32 || c.toNat = 9 || c.toNat = 10 || c.toNat = 13 || c.toNat = 11 || c.toNat = 12

/-- Python `str.strip()`: drop whitespace from both ends. -/
def pyStripChars (cs : List Char) : List Char :=
  ((cs.dropWhile pyIsSpace).reverse.dropWhile pyIsSpace).reverse

/-- ASCII decimal digit `0`–`9` (code points 48–57), the `\d` class of the
marker regex on this corpus. -/
def isAsciiDigit (c : Char) : Bool :=
  48 ≤ c.toNat && c.toNat ≤ 57

/-- The letter class `[A-Za-zÀ-ỹ]` of `_LEADING_MARK_RE`: ASCII letters
(65–90, 97–122) plus the extended-Latin block U+00C0–U+1EF9 that contains
the Vietnamese alphabet; the block already contains both cases, which is
what the `re.IGNORECASE` flag is there for. -/
def isMarkLetter (c : Char) : Bool :=
  (65 ≤ c.toNat && c.toNat ≤ 90) || (97 ≤ c.toNat && c.toNat ≤ 122) ||
    (0xC0 ≤ c.toNat && c.toNat ≤ 0x1EF9)

/-- The group `(?:\d+\.\s*|\d+\)\s*|[A-Za-zÀ-ỹ]\)\s*|[A-Za-zÀ-ỹ]\.\s*)` of
`_LEADING_MARK_RE`, matched at the head of the character list with Python's
backtracking semantics.  Returns the remainder after the match (the greedy
trailing `\s*` included), or `none` when the group does not match here.
Since `\d+` only ever backtracks to positions whose next character is a
digit (never `.` or `)`), the digit alternatives match exactly a maximal
digit run followed by the punctuation character. -/
def markGroup (cs : List Char) : Option (List Char) :=
  match cs with
  | [] => none
  | c :: rest =>
    if isAsciiDigit c then
      match rest.dropWhile isAsciiDigit with
      | c2 :: r2 => if c2 = '.' ∨ c2 = ')' then some (r2.dropWhile pyIsSpace) else none
      | [] => none
    else if isMarkLetter c then
      match rest with
      | c2 :: r2 => if c2 = '.' ∨ c2 = ')' then some (r2.dropWhile pyIsSpace) else none
      | [] => none
    else none

/-- Python `_LEADING_MARK_RE.sub('', ·)`.  The pattern is anchored with `^`
and `re.MULTILINE` is off, so at most one substitution happens, at
position 0; the leading `^\s*` is part of the removed match. -/
def leadingMarkSub (cs : List Char) : List Char :=
  match markGroup (cs.dropWhile pyIsSpace) with
  | some r => r
  | none => cs

/-- Helper of `squeezeWs`: the flag says whether the previous character was
whitespace (so its run already emitted the one replacement space). -/
def squeezeWsAux : Bool → List Char → List Char
  | _, [] => []
  | prev, c :: rest =>
    if pyIsSpace c then
      if prev then squeezeWsAux true rest else ' ' :: squeezeWsAux true rest
    else c :: squeezeWsAux false rest

/-- Python `re.sub(r'\s+', ' ', ·)`: replace each maximal whitespace run by
a single space. -/
def squeezeWs (cs : List Char) : List Char :=
  squeezeWsAux false cs

/-- Python `.replace('\r', ' ').replace('\n', ' ')`. -/
def pyReplaceNl (cs : List Char) : List Char :=
  cs.map (fun c => if c = '\r' then ' ' else if c = '\n' then ' ' else c)

/-- `normalize_for_compare` (compare_mapping.py, lines 43–56): `none`
models Python `None` (the `if not text` guard catches both). -/
def normalize_for_compare (text : Option String) : String :=
  match text with
  | none => ""
  | some s =>
    if s = "" then ""
    else String.mk (pyStripChars (squeezeWs (pyReplaceNl (leadingMarkSub (pyStripChars s.data)))))

/-- `normalize_for_output` (compare_mapping.py, lines 58–70): textually the
same pipeline as `normalize_for_compare`. -/
def normalize_for_output (text : Option String) : String :=
  match text with
  | none => ""
  | some s =>
    if s = "" then ""
    else String.mk (pyStripChars (squeezeWs (pyReplaceNl (leadingMarkSub (pyStripChars s.data)))))

/-- One token of the leading-marker grammar: a non-empty digit run or a
single letter of the extended class, followed by `.` or `)`. -/
def isMarkTok (m : List Char) : Bool :=
  (m.dropLast ≠ [] && (m.dropLast.all isAsciiDigit ||
      (m.dropLast.length = 1 && m.dropLast.all isMarkLetter))) &&
    (m.getLast? = some '.' || m.getLast? = some ')')

/-! ### Unit model and flattening (`extract_units`) -/

/-- One flattened comparable unit, as built by `extract_units`. -/
structure TextUnit where
  article_id : Option String
  article_number : Option String
  clause_id : Option String
  point_id : Option String
  text : String
deriving Repr, DecidableEq, Inhabited

/-- A `point` record of the input JSON. -/
structure PointJson where
  point_id : Option String
  point : Option String
  full_text : Option String
deriving Repr, DecidableEq

/-- A `clause` record of the input JSON. -/
structure ClauseJson where
  clause_id : Option String
  clause : Option String
  full_text : Option String
  points : List PointJson
deriving Repr, DecidableEq

/-- An `article` record of the input JSON. -/
structure ArticleJson where
  article_id : Option String
  article_number : Option String
  full_text : Option String
  clauses : List ClauseJson
deriving Repr, DecidableEq

/-- Python truthiness of an optional string field (`if article.get(...)`):
present and not the empty string. -/
def truthy : Option String → Bool
  | none => false
  | some s => s ≠ ""

/-- Python `a or b` on two optional string fields: the first if truthy,
otherwise the second. -/
def pyOrElse (a b : Option String) : Option String :=
  if truthy a then a else b

/-- The `if x.get("full_text"): units.append({...})` idiom of
`extract_units`: emit one unit built from the text when the field is
truthy, nothing otherwise. -/
def unitIfText (full_text : Option String) (mk : String → TextUnit) : List TextUnit :=
  match full_text with
  | some s => if s ≠ "" then [mk s] else []
  | none => []

/-- `extract_units` (compare_mapping.py, lines 73–116): the article-level
unit, then per clause the clause-level unit followed by its points.  A unit
is appended exactly when the corresponding `full_text` field is truthy. -/
def extract_units (a : ArticleJson) : List TextUnit :=
  unitIfText a.full_text (fun s => ⟨a.article_id, a.article_number, none, none, s⟩) ++
  a.clauses.flatMap (fun c =>
    unitIfText c.full_text
      (fun s => ⟨a.article_id, a.article_number, pyOrElse c.clause_id c.clause, none, s⟩) ++
    c.points.flatMap (fun p =>
      unitIfText p.full_text
        (fun s => ⟨a.article_id, a.article_number, pyOrElse c.clause_id c.clause,
          pyOrElse p.point_id p.point, s⟩)))

/-! ### Configuration constants (compare_mapping.py, lines 28–33) -/

def MATCH_THRESHOLD : ℚ := 0.60

def SPLIT_UNIT_THRESH : ℚ := 0.35

def SPLIT_SUM_THRESH : ℚ := 0.75

def MERGE_UNIT_THRESH : ℚ := 0.35

def MERGE_SUM_THRESH : ℚ := 0.75

/-! ### Sorting helpers (Python stable `sort(key=..., reverse=True)`) -/

/-- Descending order on the similarity component of a split/merge
candidate. -/
def descSnd (a b : ℕ × ℚ) : Prop := b.2 ≤ a.2

instance : DecidableRel descSnd :=
  fun a b => inferInstanceAs (Decidable (b.2 ≤ a.2))

instance : IsTotal (ℕ × ℚ) descSnd :=
  ⟨fun a b => le_total b.2 a.2⟩

instance : IsTrans (ℕ × ℚ) descSnd :=
  ⟨fun _ _ _ h1 h2 => le_trans h2 h1⟩

/-- Descending order on the similarity component of a candidate pair. -/
def descThird (a b : ℕ × ℕ × ℚ) : Prop := b.2.2 ≤ a.2.2

instance : DecidableRel descThird :=
  fun a b => inferInstanceAs (Decidable (b.2.2 ≤ a.2.2))

instance : IsTotal (ℕ × ℕ × ℚ) descThird :=
  ⟨fun a b => le_total b.2.2 a.2.2⟩

instance : IsTrans (ℕ × ℕ × ℚ) descThird :=
  ⟨fun _ _ _ h1 h2 => le_trans h2 h1⟩

/-- Python `sims.sort(key=lambda x: x[1], reverse=True)`: stable descending
sort by similarity. -/
def sortDescSnd (l : List (ℕ × ℚ)) : List (ℕ × ℚ) :=
  l.insertionSort descSnd

/-- Python `cand.sort(key=lambda x: x[2], reverse=True)` (and line 214):
stable descending sort of candidate triples by similarity. -/
def sortDescThird (l : List (ℕ × ℕ × ℚ)) : List (ℕ × ℕ × ℚ) :=
  l.insertionSort descThird

/-! ### Matching (`global_optimal_matching` greedy branch, post-filter) -/

/-- The greedy one-to-one accumulation loop of `global_optimal_matching`
(compare_mapping.py, lines 143–148): `mo`, `mn` are the `matched_old`,
`matched_new` claimed-index sets. -/
def greedyOneToOne : List (ℕ × ℕ × ℚ) → List ℕ → List ℕ → List (ℕ × ℕ × ℚ)
  | [], _, _ => []
  | p :: rest, mo, mn =>
    if p.1 ∈ mo ∨ p.2.1 ∈ mn then greedyOneToOne rest mo mn
    else p :: greedyOneToOne rest (p.1 :: mo) (p.2.1 :: mn)

/-- The fallback branch of `global_optimal_matching` (compare_mapping.py,
lines 136–149): enumerate all pairs with non-negative similarity in
row-major order, sort descending by similarity, then assign greedily. -/
def global_greedy_matching (n_old n_new : ℕ) (sim : ℕ → ℕ → ℚ) : List (ℕ × ℕ × ℚ) :=
  let cand := (List.range n_old).flatMap (fun r =>
    (List.range n_new).filterMap (fun c =>
      if (0 : ℚ) ≤ sim r c then some (r, c, sim r c) else none))
  greedyOneToOne (sortDescThird cand) [] []

/-- The post-filter of `generate_mapping` (compare_mapping.py, lines
217–225): walk the candidate pairs, keep a pair when neither index is
claimed yet and its score reaches the threshold. -/
def keepMatched : List (ℕ × ℕ × ℚ) → List ℕ → List ℕ → ℚ → List (ℕ × ℕ × ℚ)
  | [], _, _, _ => []
  | p :: rest, mo, mn, thr =>
    if p.1 ∈ mo ∨ p.2.1 ∈ mn then keepMatched rest mo mn thr
    else if thr ≤ p.2.2 then p :: keepMatched rest (p.1 :: mo) (p.2.1 :: mn) thr
    else keepMatched rest mo mn thr

/-- `matched_pairs` as computed by `generate_mapping` (lines 213–225): the
candidate pairs are first re-sorted descending by score, then filtered. -/
def matched_pairs_of (candidate_pairs : List (ℕ × ℕ × ℚ)) (thr : ℚ) : List (ℕ × ℕ × ℚ) :=
  keepMatched (sortDescThird candidate_pairs) [] [] thr

/-- The `matched_old_idx` index set (line 231). -/
def matched_old_of (candidate_pairs : List (ℕ × ℕ × ℚ)) (thr : ℚ) : List ℕ :=
  (matched_pairs_of candidate_pairs thr).map (fun p => p.1)

/-- The `matched_new_idx` index set (line 232). -/
def matched_new_of (candidate_pairs : List (ℕ × ℕ × ℚ)) (thr : ℚ) : List ℕ :=
  (matched_pairs_of candidate_pairs thr).map (fun p => p.2.1)

/-! ### Split/merge detection (`detect_splits_and_merges`) -/

/-- The split half of `detect_splits_and_merges` (compare_mapping.py,
lines 159–166), as an association list in dict insertion order
(`i` ascending). -/
def detect_splits (n_old n_new : ℕ) (sim : ℕ → ℕ → ℚ) : List (ℕ × List (ℕ × ℚ)) :=
  (List.range n_old).filterMap (fun i =>
    let sims := sortDescSnd (((List.range n_new).filter
      (fun j => SPLIT_UNIT_THRESH ≤ sim i j)).map (fun j => (j, sim i j)))
    if 1 < sims.length ∧ SPLIT_SUM_THRESH ≤ (sims.map (fun p => p.2)).sum then
      some (i, sims)
    else none)

/-- The merge half of `detect_splits_and_merges` (compare_mapping.py,
lines 167–174). -/
def detect_merges (n_old n_new : ℕ) (sim : ℕ → ℕ → ℚ) : List (ℕ × List (ℕ × ℚ)) :=
  (List.range n_new).filterMap (fun j =>
    let sims := sortDescSnd (((List.range n_old).filter
      (fun i => MERGE_UNIT_THRESH ≤ sim i j)).map (fun i => (i, sim i j)))
    if 1 < sims.length ∧ MERGE_SUM_THRESH ≤ (sims.map (fun p => p.2)).sum then
      some (j, sims)
    else none)

/-- Keys of the split dict. -/
def split_keys (n_old n_new : ℕ) (sim : ℕ → ℕ → ℚ) : List ℕ :=
  (detect_splits n_old n_new sim).map (fun q => q.1)

/-- Keys of the merge dict. -/
def merge_keys (n_old n_new : ℕ) (sim : ℕ → ℕ → ℚ) : List ℕ :=
  (detect_merges n_old n_new sim).map (fun q => q.1)

/-! ### Changelog synthesis (`generate_mapping`, lines 230–359) -/

/-- The four identifier fields stored under `unit_2013` / `unit_2024`. -/
structure UnitRef where
  article_id : Option String
  article_number : Option String
  clause_id : Option String
  point_id : Option String
deriving Repr, DecidableEq

/-- One output record.  `oldIdx` / `newIdx` record the index of the unit
the record was built from (the loop variable at the corresponding source
line); the remaining fields are the JSON payload. -/
structure MapEntry where
  oldIdx : Option ℕ
  newIdx : Option ℕ
  unit_2013 : Option UnitRef
  unit_2024 : Option UnitRef
  similarity : ℚ
  change_type : String
  before_change : String
  after_change : String
deriving Repr, DecidableEq

/-- The identifier projection used when a unit is embedded in a record. -/
def unitRef (u : TextUnit) : UnitRef :=
  ⟨u.article_id, u.article_number, u.clause_id, u.point_id⟩

/-- Python `round(float(s), 3)` (ties at the fourth decimal are resolved
upward here instead of to even, a difference no claim touches). -/
def pyRound3 (q : ℚ) : ℚ :=
  ((round (q * 1000) : ℤ) : ℚ) / 1000

/-- A `modified` record (compare_mapping.py, lines 241–258). -/
def modifiedEntry (i j : ℕ) (s : ℚ) (old_u new_u : TextUnit) : MapEntry :=
  ⟨some i, some j, some (unitRef old_u), some (unitRef new_u), pyRound3 s, "modified",
    normalize_for_output (some old_u.text), normalize_for_output (some new_u.text)⟩

/-- A `deleted` record (lines 265–277, 308–320 and 323–335 build this same
record shape). -/
def deletedEntry (i : ℕ) (old_u : TextUnit) : MapEntry :=
  ⟨some i, none, some (unitRef old_u), none, 0, "deleted",
    normalize_for_output (some old_u.text), ""⟩

/-- An `added` record (lines 284–296 and 347–359). -/
def addedEntry (j : ℕ) (new_u : TextUnit) : MapEntry :=
  ⟨none, some j, none, some (unitRef new_u), 0, "added", "",
    normalize_for_output (some new_u.text)⟩

/-- Step 1 of `generate_mapping` (lines 234–258): one `modified` record per
accepted pair whose normalized texts differ; text-equal pairs are skipped
(implicitly unchanged). -/
def step1_modified (units_old units_new : List TextUnit)
    (mp : List (ℕ × ℕ × ℚ)) : List MapEntry :=
  mp.filterMap (fun p =>
    let old_u := units_old.getD p.1 default
    let new_u := units_new.getD p.2.1 default
    if normalize_for_compare (some old_u.text) = normalize_for_compare (some new_u.text) then
      none
    else some (modifiedEntry p.1 p.2.1 p.2.2 old_u new_u))

/-- Step 2 of `generate_mapping` (lines 260–278): every split source is
emitted as `deleted`, with no check against the matched set. -/
def step2_split_deleted (units_old : List TextUnit)
    (splits : List (ℕ × List (ℕ × ℚ))) : List MapEntry :=
  splits.map (fun q => deletedEntry q.1 (units_old.getD q.1 default))

/-- Step 3 of `generate_mapping` (lines 280–297): every merge target is
emitted as `added`, with no check against the matched set. -/
def step3_merge_added (units_new : List TextUnit)
    (merges : List (ℕ × List (ℕ × ℚ))) : List MapEntry :=
  merges.map (fun q => addedEntry q.1 (units_new.getD q.1 default))

/-- Step 4 of `generate_mapping` (lines 299–335): residual deletions.  The
merge-leg branch and the standalone branch of the source build identical
records, so they are written as one arm here. -/
def step4_residual_deleted (units_old : List TextUnit)
    (matched_old_idx split_old_indices : List ℕ) : List MapEntry :=
  (List.range units_old.length).filterMap (fun i =>
    if i ∈ matched_old_idx then none
    else if i ∈ split_old_indices then none
    else some (deletedEntry i (units_old.getD i default)))

/-- Step 5 of `generate_mapping` (lines 337–359): residual additions; new
units that are candidate targets of a split are deliberately skipped. -/
def step5_residual_added (units_new : List TextUnit)
    (matched_new_idx merge_new_indices split_new_indices : List ℕ) : List MapEntry :=
  (List.range units_new.length).filterMap (fun j =>
    if j ∈ matched_new_idx then none
    else if j ∈ merge_new_indices then none
    else if j ∈ split_new_indices then none
    else some (addedEntry j (units_new.getD j default)))

/-- Steps 1–5 of `generate_mapping` (compare_mapping.py, lines 213–359),
from the extracted units, the similarity matrix and the candidate pairs
returned by the matcher. -/
def generate_entries (units_old units_new : List TextUnit) (sim : ℕ → ℕ → ℚ)
    (candidate_pairs : List (ℕ × ℕ × ℚ)) (thr : ℚ) : List MapEntry :=
  let mp := matched_pairs_of candidate_pairs thr
  let splits := detect_splits units_old.length units_new.length sim
  let merges := detect_merges units_old.length units_new.length sim
  step1_modified units_old units_new mp ++
  step2_split_deleted units_old splits ++
  step3_merge_added units_new merges ++
  step4_residual_deleted units_old (mp.map (fun p => p.1)) (splits.map (fun q => q.1)) ++
  step5_residual_added units_new (mp.map (fun p => p.2.1)) (merges.map (fun q => q.1))
    (splits.flatMap (fun q => q.2.map (fun p => p.1)))

/-- The whole run of `generate_mapping` (compare_mapping.py, lines
178–363) after JSON loading, with the external TF-IDF/cosine computation
abstracted as `simOf` (a similarity oracle over the two normalized text
lists) and the matcher (Hungarian or greedy) abstracted as `matcher`.
Returns the list written to the output file.  The guard mirrors the
`if not texts_old and not texts_new` early return of lines 199–203. -/
def generate_mapping_model (arts_old arts_new : List ArticleJson)
    (simOf : List String → List String → ℕ → ℕ → ℚ)
    (matcher : ℕ → ℕ → (ℕ → ℕ → ℚ) → List (ℕ × ℕ × ℚ)) (thr : ℚ) : List MapEntry :=
  let units_old := arts_old.flatMap extract_units
  let units_new := arts_new.flatMap extract_units
  let texts_old := units_old.map (fun u => normalize_for_compare (some u.text))
  let texts_new := units_new.map (fun u => normalize_for_compare (some u.text))
  if texts_old = [] ∧ texts_new = [] then []
  else
    let sim := simOf texts_old texts_new
    let candidate_pairs := matcher units_old.length units_new.length sim
    generate_entries units_old units_new sim candidate_pairs thr

/-- The normalized comparison-text list of a corpus (compare_mapping.py,
lines 188–196). -/
def corpus_texts (arts : List ArticleJson) : List String :=
  (arts.flatMap extract_units).map (fun u => normalize_for_compare (some u.text))

/-! ### Concrete inputs used by witnesses and counterexamples -/

def cexOldUnit : TextUnit := ⟨some "a1", some "1", none, none, "a"⟩

def cexNewUnitA : TextUnit := ⟨some "a1", some "1", none, none, "b"⟩

def cexNewUnitB : TextUnit := ⟨some "a1", some "1", some "2", none, "c"⟩

/-- One old unit resembling two new units: strongly matched to new 0 and
still similar to new 1. -/
def cexSimSplit : ℕ → ℕ → ℚ := fun i j =>
  if i = 0 ∧ j = 0 then 9/10 else if i = 0 ∧ j = 1 then 2/5 else 0

/-- Two old units resembling one new unit: the transpose situation. -/
def cexSimMerge : ℕ → ℕ → ℚ := fun i j =>
  if i = 0 ∧ j = 0 then 9/10 else if i = 1 ∧ j = 0 then 2/5 else 0

/-- A one-article document with an article-level text and one clause. -/
def cexSelfArts : List ArticleJson :=
  [⟨some "a1", some "1", some "a", [⟨some "1", none, some "b", []⟩]⟩]

/-- A self-comparison similarity matrix: exact on the diagonal, moderately
similar (0.4) across the two related units. -/
def cexSelfSimFn : ℕ → ℕ → ℚ := fun i j => if i = j then 1 else 2/5

/-- The corresponding similarity oracle (ignores the text lists, as the
concrete matrix is fixed). -/
def cexSelfSim : List String → List String → ℕ → ℕ → ℚ := fun _ _ => cexSelfSimFn

/-! ### Entry counting helpers used by the claim statements -/

/-- How many records of the changelog were built from old unit `i`. -/
def countOld (i : ℕ) (es : List MapEntry) : ℕ :=
  (es.filter (fun e => e.oldIdx == some i)).length

/-- How many records of the changelog were built from new unit `j`. -/
def countNew (j : ℕ) (es : List MapEntry) : ℕ :=
  (es.filter (fun e => e.newIdx == some j)).length

/-- How many `deleted` records were built from old unit `i`. -/
def countOldDeleted (i : ℕ) (es : List MapEntry) : ℕ :=
  (es.filter (fun e => e.oldIdx == some i && e.change_type == "deleted")).length

/-- How many `added` records were built from new unit `j`. -/
def countNewAdded (j : ℕ) (es : List MapEntry) : ℕ :=
  (es.filter (fun e => e.newIdx == some j && e.change_type == "added")).length

/-! ### Lemmas about the post-filter -/

/-- Every pair kept by the post-filter reaches the threshold and claims
indices that were still free. -/
theorem keepMatched_mem_sound : ∀ (l : List (ℕ × ℕ × ℚ)) (mo mn : List ℕ) (thr : ℚ),
    ∀ p ∈ keepMatched l mo mn thr, thr ≤ p.2.2 ∧ p.1 ∉ mo ∧ p.2.1 ∉ mn := by
  intro l
  induction l with
  | nil => intro mo mn thr p hp; simp [keepMatched] at hp
  | cons a rest ih =>
    intro mo mn thr p hp
    simp only [keepMatched] at hp
    split_ifs at hp with h1 h2
    · exact ih mo mn thr p hp
    · rcases List.mem_cons.mp hp with rfl | hp'
      · exact ⟨h2, fun hc => h1 (Or.inl hc), fun hc => h1 (Or.inr hc)⟩
      · obtain ⟨hs, hmo, hmn⟩ := ih _ _ thr p hp'
        exact ⟨hs, fun hc => hmo (List.mem_cons_of_mem _ hc),
          fun hc => hmn (List.mem_cons_of_mem _ hc)⟩
    · exact ih mo mn thr p hp

/-- The kept pairs are a subset of the scanned list. -/
theorem keepMatched_subset : ∀ (l : List (ℕ × ℕ × ℚ)) (mo mn : List ℕ) (thr : ℚ),
    ∀ p ∈ keepMatched l mo mn thr, p ∈ l := by
  intro l
  induction l with
  | nil => intro mo mn thr p hp; simp [keepMatched] at hp
  | cons a rest ih =>
    intro mo mn thr p hp
    simp only [keepMatched] at hp
    split_ifs at hp with h1 h2
    · exact List.mem_cons_of_mem _ (ih mo mn thr p hp)
    · rcases List.mem_cons.mp hp with rfl | hp'
      · exact List.mem_cons_self _ _
      · exact List.mem_cons_of_mem _ (ih _ _ thr p hp')
    · exact List.mem_cons_of_mem _ (ih mo mn thr p hp)

/-- No old index is claimed twice by the post-filter. -/
theorem keepMatched_fst_nodup : ∀ (l : List (ℕ × ℕ × ℚ)) (mo mn : List ℕ) (thr : ℚ),
    ((keepMatched l mo mn thr).map (fun p => p.1)).Nodup := by
  intro l
  induction l with
  | nil => intro mo mn thr; simp [keepMatched]
  | cons a rest ih =>
    intro mo mn thr
    simp only [keepMatched]
    split_ifs with h1 h2
    · exact ih mo mn thr
    · refine List.Nodup.cons ?_ (ih _ _ thr)
      intro hc
      obtain ⟨q, hq, hq1⟩ := List.mem_map.mp hc
      exact (keepMatched_mem_sound _ _ _ thr q hq).2.1 (hq1 ▸ List.mem_cons_self _ _)
    · exact ih mo mn thr

/-- No new index is claimed twice by the post-filter. -/
theorem keepMatched_snd_nodup : ∀ (l : List (ℕ × ℕ × ℚ)) (mo mn : List ℕ) (thr : ℚ),
    ((keepMatched l mo mn thr).map (fun p => p.2.1)).Nodup := by
  intro l
  induction l with
  | nil => intro mo mn thr; simp [keepMatched]
  | cons a rest ih =>
    intro mo mn thr
    simp only [keepMatched]
    split_ifs with h1 h2
    · exact ih mo mn thr
    · refine List.Nodup.cons ?_ (ih _ _ thr)
      intro hc
      obtain ⟨q, hq, hq1⟩ := List.mem_map.mp hc
      exact (keepMatched_mem_sound _ _ _ thr q hq).2.2 (hq1 ▸ List.mem_cons_self _ _)
    · exact ih mo mn thr

/-- Any record emitted by step 2 is a `deleted` record. -/
theorem step2_change_type (units_old : List TextUnit) (splits : List (ℕ × List (ℕ × ℚ))) :
    ∀ e ∈ step2_split_deleted units_old splits, e.change_type = "deleted" := by
  intro e he
  obtain ⟨q, _, rfl⟩ := List.mem_map.mp he
  rfl

/-- Any record emitted by step 3 is an `added` record. -/
theorem step3_change_type (units_new : List TextUnit) (merges : List (ℕ × List (ℕ × ℚ))) :
    ∀ e ∈ step3_merge_added units_new merges, e.change_type = "added" := by
  intro e he
  obtain ⟨q, _, rfl⟩ := List.mem_map.mp he
  rfl

/-- Any record emitted by step 4 is a `deleted` record built from its loop
index. -/
theorem step4_shape (units_old : List TextUnit) (mo so : List ℕ) :
    ∀ e ∈ step4_residual_deleted units_old mo so,
      ∃ i, i < units_old.length ∧ i ∉ mo ∧ i ∉ so ∧
        e = deletedEntry i (units_old.getD i default) := by
  intro e he
  obtain ⟨i, hi, hfi⟩ := List.mem_filterMap.mp he
  refine ⟨i, List.mem_range.mp hi, ?_⟩
  split_ifs at hfi with h1 h2
  exact ⟨h1, h2, (Option.some_injective _ hfi).symm⟩

/-- Any record emitted by step 5 is an `added` record built from its loop
index. -/
theorem step5_shape (units_new : List TextUnit) (mn me sn : List ℕ) :
    ∀ e ∈ step5_residual_added units_new mn me sn,
      ∃ j, j < units_new.length ∧ j ∉ mn ∧ j ∉ me ∧ j ∉ sn ∧
        e = addedEntry j (units_new.getD j default) := by
  intro e he
  obtain ⟨j, hj, hfj⟩ := List.mem_filterMap.mp he
  refine ⟨j, List.mem_range.mp hj, ?_⟩
  split_ifs at hfj with h1 h2 h3
  exact ⟨h1, h2, h3, (Option.some_injective _ hfj).symm⟩

/-- Any record emitted by step 1 comes from a pair of the filtered matched
list, with that pair's rounded score and indices. -/
theorem step1_shape (units_old units_new : List TextUnit) (mp : List (ℕ × ℕ × ℚ)) :
    ∀ e ∈ step1_modified units_old units_new mp,
      ∃ p ∈ mp, e = modifiedEntry p.1 p.2.1 p.2.2
        (units_old.getD p.1 default) (units_new.getD p.2.1 default) := by
  intro e he
  obtain ⟨p, hp, hfp⟩ := List.mem_filterMap.mp he
  refine ⟨p, hp, ?_⟩
  simp only at hfp
  split_ifs at hfp
  exact (Option.some_injective _ hfp).symm

/-- C4: after the post-filter, every accepted pair reaches the threshold,
no old or new index is used twice, and every emitted `modified` record
carries the rounded score of an accepted pair that reaches the
threshold. -/
theorem claim4_post_filter_one_to_one (candidate_pairs : List (ℕ × ℕ × ℚ)) (thr : ℚ) :
    (∀ p ∈ matched_pairs_of candidate_pairs thr, thr ≤ p.2.2) ∧
    (matched_old_of candidate_pairs thr).Nodup ∧
    (matched_new_of candidate_pairs thr).Nodup ∧
    (∀ (units_old units_new : List TextUnit) (sim : ℕ → ℕ → ℚ) (e : MapEntry),
      e ∈ generate_entries units_old units_new sim candidate_pairs thr →
      e.change_type = "modified" →
      ∃ p ∈ matched_pairs_of candidate_pairs thr,
        thr ≤ p.2.2 ∧ e.similarity = pyRound3 p.2.2 ∧
        e.oldIdx = some p.1 ∧ e.newIdx = some p.2.1) := by
  refine ⟨fun p hp => (keepMatched_mem_sound _ _ _ _ p hp).1,
    keepMatched_fst_nodup _ _ _ _, keepMatched_snd_nodup _ _ _ _, ?_⟩
  intro units_old units_new sim e he hty
  simp only [generate_entries, List.append_assoc, List.mem_append] at he
  rcases he with h1 | h2 | h3 | h4 | h5
  · obtain ⟨p, hp, rfl⟩ := step1_shape _ _ _ e h1
    exact ⟨p, hp, (keepMatched_mem_sound _ _ _ _ p hp).1, rfl, rfl, rfl⟩
  · rw [step2_change_type _ _ e h2] at hty; exact absurd hty (by decide)
  · rw [step3_change_type _ _ e h3] at hty; exact absurd hty (by decide)
  · obtain ⟨i, _, _, _, rfl⟩ := step4_shape _ _ _ e h4
    simp [deletedEntry] at hty
  · obtain ⟨j, _, _, _, _, rfl⟩ := step5_shape _ _ _ _ e h5
    simp [addedEntry] at hty

/-- Witness for C4 at a concrete candidate list. -/
theorem claim4_witness :
    (6 : ℚ)/10 ≤ 9/10 ∧ (matched_old_of [(0, 0, 9/10), (0, 1, 7/10)] (6/10)).Nodup := by
  constructor
  · exact (claim4_post_filter_one_to_one [(0, 0, 9/10), (0, 1, 7/10)] (6/10)).1 (0, 0, 9/10)
      (by norm_num [matched_pairs_of, sortDescThird, List.insertionSort, List.orderedInsert,
        descThird, keepMatched])
  · exact (claim4_post_filter_one_to_one [(0, 0, 9/10), (0, 1, 7/10)] (6/10)).2.1

/-! ### Counting lemmas -/

/-- Filtering after a `filterMap` is bounded by filtering the source with
any pulled-back predicate. -/
theorem length_filter_filterMap_le {α β : Type} (f : α → Option β) (P : β → Bool)
    (Q : α → Bool) (l : List α) (h : ∀ a b, f a = some b → P b = true → Q a = true) :
    ((l.filterMap f).filter P).length ≤ (l.filter Q).length := by
  induction l with
  | nil => simp
  | cons a rest ih =>
    cases hfa : f a with
    | none =>
      simp only [List.filterMap_cons, hfa, List.filter_cons]
      split
      · exact le_trans ih (Nat.le_succ _)
      · exact ih
    | some b =>
      simp only [List.filterMap_cons, hfa, List.filter_cons]
      by_cases hP : P b = true
      · rw [if_pos hP, if_pos (h a b hfa hP)]
        simpa using ih
      · rw [if_neg hP]
        split
        · exact le_trans ih (Nat.le_succ _)
        · exact ih

/-- In a list whose keys are pairwise distinct, at most one element has a
given key. -/
theorem nodup_key_filter_le_one {α β : Type} [DecidableEq β] (key : α → β) :
    ∀ (l : List α), ((l.map key).Nodup) → ∀ (b : β),
      (l.filter (fun x => key x == b)).length ≤ 1 := by
  intro l
  induction l with
  | nil => intro _ b; simp
  | cons x rest ih =>
    intro hnd b
    rw [List.map_cons, List.nodup_cons] at hnd
    rw [List.filter_cons]
    by_cases hx : (key x == b) = true
    · rw [if_pos hx]
      have : rest.filter (fun y => key y == b) = [] := by
        rw [List.filter_eq_nil_iff]
        intro y hy hyb
        refine hnd.1 ?_
        have : key y = b := by simpa using hyb
        have hkx : key x = b := by simpa using hx
        rw [hkx, ← this]
        exact List.mem_map_of_mem key hy
      rw [this]
      exact Nat.le_refl _
    · rw [if_neg hx]
      exact ih hnd.2 b

/-- A guarded `filterMap` over a list of keys only returns pairs keyed by a
source element. -/
theorem filterMap_keyed_sublist {β : Type} (g : ℕ → Option (ℕ × β))
    (hg : ∀ a q, g a = some q → q.1 = a) :
    ∀ (l : List ℕ), (((l.filterMap g).map (fun p => p.1)).Sublist l) := by
  intro l
  induction l with
  | nil => simp
  | cons a rest ih =>
    rw [List.filterMap_cons]
    cases hga : g a with
    | none => exact ih.cons a
    | some q =>
      rw [List.map_cons, hg a q hga]
      exact ih.cons₂ a

/-- The split dict has pairwise distinct keys. -/
theorem split_keys_nodup (n_old n_new : ℕ) (sim : ℕ → ℕ → ℚ) :
    (split_keys n_old n_new sim).Nodup := by
  refine List.Sublist.nodup (filterMap_keyed_sublist _ ?_ _) (List.nodup_range n_old)
  intro a q hq
  simp only at hq
  split_ifs at hq
  exact (Option.some_injective _ hq.symm) ▸ rfl

/-- The merge dict has pairwise distinct keys. -/
theorem merge_keys_nodup (n_old n_new : ℕ) (sim : ℕ → ℕ → ℚ) :
    (merge_keys n_old n_new sim).Nodup := by
  refine List.Sublist.nodup (filterMap_keyed_sublist _ ?_ _) (List.nodup_range n_new)
  intro a q hq
  simp only at hq
  split_ifs at hq
  exact (Option.some_injective _ hq.symm) ▸ rfl

/-- Splitting an entry count over a concatenation. -/
theorem countOld_append (i : ℕ) (a b : List MapEntry) :
    countOld i (a ++ b) = countOld i a + countOld i b := by
  simp [countOld, List.filter_append]

/-- Splitting a new-side entry count over a concatenation. -/
theorem countNew_append (j : ℕ) (a b : List MapEntry) :
    countNew j (a ++ b) = countNew j a + countNew j b := by
  simp [countNew, List.filter_append]

/-- Splitting a deleted-entry count over a concatenation. -/
theorem countOldDeleted_append (i : ℕ) (a b : List MapEntry) :
    countOldDeleted i (a ++ b) = countOldDeleted i a + countOldDeleted i b := by
  simp [countOldDeleted, List.filter_append]

/-- Splitting an added-entry count over a concatenation. -/
theorem countNewAdded_append (j : ℕ) (a b : List MapEntry) :
    countNewAdded j (a ++ b) = countNewAdded j a + countNewAdded j b := by
  simp [countNewAdded, List.filter_append]

/-- A list with no record from old unit `i` counts zero for it. -/
theorem countOld_eq_zero {i : ℕ} {es : List MapEntry}
    (h : ∀ e ∈ es, e.oldIdx ≠ some i) : countOld i es = 0 := by
  have : es.filter (fun e => e.oldIdx == some i) = [] := by
    rw [List.filter_eq_nil_iff]
    intro e he hbe
    exact h e he (by simpa using hbe)
  simp [countOld, this]

/-- A list with no record from new unit `j` counts zero for it. -/
theorem countNew_eq_zero {j : ℕ} {es : List MapEntry}
    (h : ∀ e ∈ es, e.newIdx ≠ some j) : countNew j es = 0 := by
  have : es.filter (fun e => e.newIdx == some j) = [] := by
    rw [List.filter_eq_nil_iff]
    intro e he hbe
    exact h e he (by simpa using hbe)
  simp [countNew, this]

/-- A list with no deleted record from old unit `i` counts zero. -/
theorem countOldDeleted_eq_zero {i : ℕ} {es : List MapEntry}
    (h : ∀ e ∈ es, e.oldIdx ≠ some i ∨ e.change_type ≠ "deleted") :
    countOldDeleted i es = 0 := by
  have : es.filter (fun e => e.oldIdx == some i && e.change_type == "deleted") = [] := by
    rw [List.filter_eq_nil_iff]
    intro e he hbe
    rw [Bool.and_eq_true, beq_iff_eq, beq_iff_eq] at hbe
    rcases h e he with hc | hc <;> exact hc (by tauto)
  simp [countOldDeleted, this]

/-- A list with no added record from new unit `j` counts zero. -/
theorem countNewAdded_eq_zero {j : ℕ} {es : List MapEntry}
    (h : ∀ e ∈ es, e.newIdx ≠ some j ∨ e.change_type ≠ "added") :
    countNewAdded j es = 0 := by
  have : es.filter (fun e => e.newIdx == some j && e.change_type == "added") = [] := by
    rw [List.filter_eq_nil_iff]
    intro e he hbe
    rw [Bool.and_eq_true, beq_iff_eq, beq_iff_eq] at hbe
    rcases h e he with hc | hc <;> exact hc (by tauto)
  simp [countNewAdded, this]

/-- Step 1 yields at most one record per old index when the matched pairs
are one-to-one on the old side. -/
theorem countOld_step1_le (units_old units_new : List TextUnit)
    (mp : List (ℕ × ℕ × ℚ)) (i : ℕ) (h : (mp.map (fun p => p.1)).Nodup) :
    countOld i (step1_modified units_old units_new mp) ≤ 1 := by
  refine le_trans (a := countOld i (step1_modified units_old units_new mp))
    (b := (mp.filter (fun p => p.1 == i)).length) ?_
    (nodup_key_filter_le_one (fun p => p.1) mp h i)
  refine length_filter_filterMap_le _ _ _ _ ?_
  intro p e hpe hP
  simp only at hpe
  split_ifs at hpe
  rw [← Option.some_injective _ hpe] at hP
  simp only [modifiedEntry] at hP
  simpa using hP

/-- Step 1 yields no record for an unmatched old index. -/
theorem countOld_step1_zero (units_old units_new : List TextUnit)
    (mp : List (ℕ × ℕ × ℚ)) (i : ℕ) (h : i ∉ mp.map (fun p => p.1)) :
    countOld i (step1_modified units_old units_new mp) = 0 := by
  refine countOld_eq_zero ?_
  intro e he hoi
  obtain ⟨p, hp, rfl⟩ := step1_shape _ _ _ e he
  simp only [modifiedEntry] at hoi
  exact h (Option.some_injective _ hoi ▸ List.mem_map_of_mem _ hp)

/-- Step 1 yields at most one record per new index when the matched pairs
are one-to-one on the new side. -/
theorem countNew_step1_le (units_old units_new : List TextUnit)
    (mp : List (ℕ × ℕ × ℚ)) (j : ℕ) (h : (mp.map (fun p => p.2.1)).Nodup) :
    countNew j (step1_modified units_old units_new mp) ≤ 1 := by
  refine le_trans (a := countNew j (step1_modified units_old units_new mp))
    (b := (mp.filter (fun p => p.2.1 == j)).length) ?_
    (nodup_key_filter_le_one (fun p => p.2.1) mp h j)
  refine length_filter_filterMap_le _ _ _ _ ?_
  intro p e hpe hP
  simp only at hpe
  split_ifs at hpe
  rw [← Option.some_injective _ hpe] at hP
  simp only [modifiedEntry] at hP
  simpa using hP

/-- Step 1 yields no record for an unmatched new index. -/
theorem countNew_step1_zero (units_old units_new : List TextUnit)
    (mp : List (ℕ × ℕ × ℚ)) (j : ℕ) (h : j ∉ mp.map (fun p => p.2.1)) :
    countNew j (step1_modified units_old units_new mp) = 0 := by
  refine countNew_eq_zero ?_
  intro e he hoj
  obtain ⟨p, hp, rfl⟩ := step1_shape _ _ _ e he
  simp only [modifiedEntry] at hoj
  exact h (Option.some_injective _ hoj ▸ List.mem_map_of_mem _ hp)

/-- Step 1 produces only `modified` records, never `deleted` ones. -/
theorem countOldDeleted_step1_zero (units_old units_new : List TextUnit)
    (mp : List (ℕ × ℕ × ℚ)) (i : ℕ) :
    countOldDeleted i (step1_modified units_old units_new mp) = 0 := by
  refine countOldDeleted_eq_zero ?_
  intro e he
  obtain ⟨p, hp, rfl⟩ := step1_shape _ _ _ e he
  right
  simp [modifiedEntry]

/-- Step 1 produces only `modified` records, never `added` ones. -/
theorem countNewAdded_step1_zero (units_old units_new : List TextUnit)
    (mp : List (ℕ × ℕ × ℚ)) (j : ℕ) :
    countNewAdded j (step1_modified units_old units_new mp) = 0 := by
  refine countNewAdded_eq_zero ?_
  intro e he
  obtain ⟨p, hp, rfl⟩ := step1_shape _ _ _ e he
  right
  simp [modifiedEntry]

/-- The step-2 count for old index `i` is the number of split keys equal
to `i`. -/
theorem countOld_step2_eq (units_old : List TextUnit)
    (splits : List (ℕ × List (ℕ × ℚ))) (i : ℕ) :
    countOld i (step2_split_deleted units_old splits)
      = (splits.filter (fun q => q.1 == i)).length := by
  unfold countOld step2_split_deleted
  rw [List.filter_map, List.length_map]
  refine congrArg List.length (List.filter_congr ?_)
  intro q hq
  rfl

/-- Step 2 yields at most one record per old index. -/
theorem countOld_step2_le (units_old : List TextUnit)
    (splits : List (ℕ × List (ℕ × ℚ))) (i : ℕ)
    (h : (splits.map (fun q => q.1)).Nodup) :
    countOld i (step2_split_deleted units_old splits) ≤ 1 := by
  rw [countOld_step2_eq]
  exact nodup_key_filter_le_one (fun q => q.1) splits h i

/-- Step 2 yields no record for an old index that is not a split key. -/
theorem countOld_step2_zero (units_old : List TextUnit)
    (splits : List (ℕ × List (ℕ × ℚ))) (i : ℕ)
    (h : i ∉ splits.map (fun q => q.1)) :
    countOld i (step2_split_deleted units_old splits) = 0 := by
  rw [countOld_step2_eq]
  have : splits.filter (fun q => q.1 == i) = [] := by
    rw [List.filter_eq_nil_iff]
    intro q hq hqi
    exact h ((show q.1 = i by simpa using hqi) ▸ List.mem_map_of_mem _ hq)
  rw [this]
  rfl

/-- Step 2 emits no record built from a new unit. -/
theorem countNew_step2_zero (units_old : List TextUnit)
    (splits : List (ℕ × List (ℕ × ℚ))) (j : ℕ) :
    countNew j (step2_split_deleted units_old splits) = 0 := by
  refine countNew_eq_zero ?_
  intro e he
  obtain ⟨q, _, rfl⟩ := List.mem_map.mp he
  simp [deletedEntry]

/-- The step-3 count for new index `j` is the number of merge keys equal
to `j`. -/
theorem countNew_step3_eq (units_new : List TextUnit)
    (merges : List (ℕ × List (ℕ × ℚ))) (j : ℕ) :
    countNew j (step3_merge_added units_new merges)
      = (merges.filter (fun q => q.1 == j)).length := by
  unfold countNew step3_merge_added
  rw [List.filter_map, List.length_map]
  refine congrArg List.length (List.filter_congr ?_)
  intro q hq
  rfl

/-- Step 3 yields at most one record per new index. -/
theorem countNew_step3_le (units_new : List TextUnit)
    (merges : List (ℕ × List (ℕ × ℚ))) (j : ℕ)
    (h : (merges.map (fun q => q.1)).Nodup) :
    countNew j (step3_merge_added units_new merges) ≤ 1 := by
  rw [countNew_step3_eq]
  exact nodup_key_filter_le_one (fun q => q.1) merges h j

/-- Step 3 yields no record for a new index that is not a merge key. -/
theorem countNew_step3_zero (units_new : List TextUnit)
    (merges : List (ℕ × List (ℕ × ℚ))) (j : ℕ)
    (h : j ∉ merges.map (fun q => q.1)) :
    countNew j (step3_merge_added units_new merges) = 0 := by
  rw [countNew_step3_eq]
  have : merges.filter (fun q => q.1 == j) = [] := by
    rw [List.filter_eq_nil_iff]
    intro q hq hqj
    exact h ((show q.1 = j by simpa using hqj) ▸ List.mem_map_of_mem _ hq)
  rw [this]
  rfl

/-- Step 3 emits no record built from an old unit. -/
theorem countOld_step3_zero (units_new : List TextUnit)
    (merges : List (ℕ × List (ℕ × ℚ))) (i : ℕ) :
    countOld i (step3_merge_added units_new merges) = 0 := by
  refine countOld_eq_zero ?_
  intro e he
  obtain ⟨q, _, rfl⟩ := List.mem_map.mp he
  simp [addedEntry]

/-- Step 4 yields at most one record per old index. -/
theorem countOld_step4_le (units_old : List TextUnit) (mo so : List ℕ) (i : ℕ) :
    countOld i (step4_residual_deleted units_old mo so) ≤ 1 := by
  refine le_trans (b := ((List.range units_old.length).filter (fun x => x == i)).length) ?_ ?_
  · refine length_filter_filterMap_le _ _ _ _ ?_
    intro a e hae hP
    split_ifs at hae
    rw [← Option.some_injective _ hae] at hP
    simp only [deletedEntry] at hP
    simpa using hP
  · have := nodup_key_filter_le_one (fun x : ℕ => x) (List.range units_old.length)
      (by simpa using List.nodup_range units_old.length) i
    simpa using this

/-- Step 4 yields no record for an old index in the matched set. -/
theorem countOld_step4_zero_matched (units_old : List TextUnit) (mo so : List ℕ)
    (i : ℕ) (h : i ∈ mo) :
    countOld i (step4_residual_deleted units_old mo so) = 0 := by
  refine countOld_eq_zero ?_
  intro e he hoi
  obtain ⟨i', _, hmo, _, rfl⟩ := step4_shape _ _ _ e he
  simp only [deletedEntry] at hoi
  exact hmo (Option.some_injective _ hoi ▸ h)

/-- Step 4 yields no record for an old index that is a split key. -/
theorem countOld_step4_zero_split (units_old : List TextUnit) (mo so : List ℕ)
    (i : ℕ) (h : i ∈ so) :
    countOld i (step4_residual_deleted units_old mo so) = 0 := by
  refine countOld_eq_zero ?_
  intro e he hoi
  obtain ⟨i', _, _, hso, rfl⟩ := step4_shape _ _ _ e he
  simp only [deletedEntry] at hoi
  exact hso (Option.some_injective _ hoi ▸ h)

/-- Step 4 emits no record built from a new unit. -/
theorem countNew_step4_zero (units_old : List TextUnit) (mo so : List ℕ) (j : ℕ) :
    countNew j (step4_residual_deleted units_old mo so) = 0 := by
  refine countNew_eq_zero ?_
  intro e he
  obtain ⟨i', _, _, _, rfl⟩ := step4_shape _ _ _ e he
  simp [deletedEntry]

/-- Step 5 yields at most one record per new index. -/
theorem countNew_step5_le (units_new : List TextUnit) (mn me sn : List ℕ) (j : ℕ) :
    countNew j (step5_residual_added units_new mn me sn) ≤ 1 := by
  refine le_trans (b := ((List.range units_new.length).filter (fun x => x == j)).length) ?_ ?_
  · refine length_filter_filterMap_le _ _ _ _ ?_
    intro a e hae hP
    split_ifs at hae
    rw [← Option.some_injective _ hae] at hP
    simp only [addedEntry] at hP
    simpa using hP
  · have := nodup_key_filter_le_one (fun x : ℕ => x) (List.range units_new.length)
      (by simpa using List.nodup_range units_new.length) j
    simpa using this

/-- Step 5 yields no record for a new index in the matched set. -/
theorem countNew_step5_zero_matched (units_new : List TextUnit) (mn me sn : List ℕ)
    (j : ℕ) (h : j ∈ mn) :
    countNew j (step5_residual_added units_new mn me sn) = 0 := by
  refine countNew_eq_zero ?_
  intro e he hoj
  obtain ⟨j', _, hmn, _, _, rfl⟩ := step5_shape _ _ _ _ e he
  simp only [addedEntry] at hoj
  exact hmn (Option.some_injective _ hoj ▸ h)

/-- Step 5 yields no record for a new index that is a merge key. -/
theorem countNew_step5_zero_merge (units_new : List TextUnit) (mn me sn : List ℕ)
    (j : ℕ) (h : j ∈ me) :
    countNew j (step5_residual_added units_new mn me sn) = 0 := by
  refine countNew_eq_zero ?_
  intro e he hoj
  obtain ⟨j', _, _, hme, _, rfl⟩ := step5_shape _ _ _ _ e he
  simp only [addedEntry] at hoj
  exact hme (Option.some_injective _ hoj ▸ h)

/-- Step 5 emits no record built from an old unit. -/
theorem countOld_step5_zero (units_new : List TextUnit) (mn me sn : List ℕ) (i : ℕ) :
    countOld i (step5_residual_added units_new mn me sn) = 0 := by
  refine countOld_eq_zero ?_
  intro e he
  obtain ⟨j', _, _, _, _, rfl⟩ := step5_shape _ _ _ _ e he
  simp [addedEntry]

/-- Deleted records from `i` are among all records from `i`. -/
theorem countOldDeleted_le_countOld (i : ℕ) (es : List MapEntry) :
    countOldDeleted i es ≤ countOld i es := by
  unfold countOldDeleted countOld
  rw [← List.filter_filter]
  exact (List.Sublist.filter _ (List.filter_sublist _)).length_le

/-- Added records from `j` are among all records from `j`. -/
theorem countNewAdded_le_countNew (j : ℕ) (es : List MapEntry) :
    countNewAdded j es ≤ countNew j es := by
  unfold countNewAdded countNew
  rw [← List.filter_filter]
  exact (List.Sublist.filter _ (List.filter_sublist _)).length_le

/-- C1 (amended): an old unit index yields at most one changelog record
unless it is simultaneously part of an accepted match and a detected
split; and a matched old unit that is not a detected split is never
emitted as `deleted`. -/
theorem claim1_old_unit_single_classification
    (units_old units_new : List TextUnit) (sim : ℕ → ℕ → ℚ)
    (candidate_pairs : List (ℕ × ℕ × ℚ)) (thr : ℚ) (i : ℕ) :
    (¬ (i ∈ matched_old_of candidate_pairs thr ∧
        i ∈ split_keys units_old.length units_new.length sim) →
      countOld i (generate_entries units_old units_new sim candidate_pairs thr) ≤ 1) ∧
    (i ∈ matched_old_of candidate_pairs thr →
      i ∉ split_keys units_old.length units_new.length sim →
      countOldDeleted i (generate_entries units_old units_new sim candidate_pairs thr) = 0) := by
  have hnodup : ((matched_pairs_of candidate_pairs thr).map (fun p => p.1)).Nodup := by
    rw [matched_pairs_of]
    exact keepMatched_fst_nodup _ _ _ _
  constructor
  · intro hni
    simp only [generate_entries, countOld_append]
    rw [countOld_step3_zero, countOld_step5_zero]
    by_cases hm : i ∈ matched_old_of candidate_pairs thr
    · have hs : i ∉ split_keys units_old.length units_new.length sim :=
        fun hs => hni ⟨hm, hs⟩
      simp only [split_keys] at hs
      simp only [matched_old_of] at hm
      rw [countOld_step2_zero _ _ _ hs, countOld_step4_zero_matched _ _ _ _ hm]
      have := countOld_step1_le units_old units_new (matched_pairs_of candidate_pairs thr) i hnodup
      omega
    · simp only [matched_old_of] at hm
      rw [countOld_step1_zero _ _ _ _ hm]
      by_cases hsk : i ∈ split_keys units_old.length units_new.length sim
      · simp only [split_keys] at hsk
        rw [countOld_step4_zero_split _ _ _ _ hsk]
        have := countOld_step2_le units_old
          (detect_splits units_old.length units_new.length sim) i
          (split_keys_nodup units_old.length units_new.length sim)
        omega
      · simp only [split_keys] at hsk
        rw [countOld_step2_zero _ _ _ hsk]
        have := countOld_step4_le units_old
          ((matched_pairs_of candidate_pairs thr).map (fun p => p.1))
          ((detect_splits units_old.length units_new.length sim).map (fun q => q.1)) i
        omega
  · intro hm hs
    simp only [split_keys] at hs
    simp only [matched_old_of] at hm
    simp only [generate_entries, countOldDeleted_append]
    rw [countOldDeleted_step1_zero]
    have h2 : countOldDeleted i (step2_split_deleted units_old
        (detect_splits units_old.length units_new.length sim)) = 0 :=
      Nat.le_zero.mp (le_trans (countOldDeleted_le_countOld _ _)
        (le_of_eq (countOld_step2_zero _ _ _ hs)))
    have h3 : countOldDeleted i (step3_merge_added units_new
        (detect_merges units_old.length units_new.length sim)) = 0 :=
      Nat.le_zero.mp (le_trans (countOldDeleted_le_countOld _ _)
        (le_of_eq (countOld_step3_zero _ _ _)))
    have h4 : countOldDeleted i (step4_residual_deleted units_old
        ((matched_pairs_of candidate_pairs thr).map (fun p => p.1))
        ((detect_splits units_old.length units_new.length sim).map (fun q => q.1))) = 0 :=
      Nat.le_zero.mp (le_trans (countOldDeleted_le_countOld _ _)
        (le_of_eq (countOld_step4_zero_matched _ _ _ _ hm)))
    have h5 : countOldDeleted i (step5_residual_added units_new
        ((matched_pairs_of candidate_pairs thr).map (fun p => p.2.1))
        ((detect_merges units_old.length units_new.length sim).map (fun q => q.1))
        ((detect_splits units_old.length units_new.length sim).flatMap
          (fun q => q.2.map (fun p => p.1)))) = 0 :=
      Nat.le_zero.mp (le_trans (countOldDeleted_le_countOld _ _)
        (le_of_eq (countOld_step5_zero _ _ _ _ _)))
    omega

/-- C2 (amended): a new unit index yields at most one changelog record
unless it is simultaneously part of an accepted match and a detected
merge; and a matched new unit that is not a detected merge target is never
emitted as `added`. -/
theorem claim2_new_unit_single_classification
    (units_old units_new : List TextUnit) (sim : ℕ → ℕ → ℚ)
    (candidate_pairs : List (ℕ × ℕ × ℚ)) (thr : ℚ) (j : ℕ) :
    (¬ (j ∈ matched_new_of candidate_pairs thr ∧
        j ∈ merge_keys units_old.length units_new.length sim) →
      countNew j (generate_entries units_old units_new sim candidate_pairs thr) ≤ 1) ∧
    (j ∈ matched_new_of candidate_pairs thr →
      j ∉ merge_keys units_old.length units_new.length sim →
      countNewAdded j (generate_entries units_old units_new sim candidate_pairs thr) = 0) := by
  have hnodup : ((matched_pairs_of candidate_pairs thr).map (fun p => p.2.1)).Nodup := by
    rw [matched_pairs_of]
    exact keepMatched_snd_nodup _ _ _ _
  constructor
  · intro hni
    simp only [generate_entries, countNew_append]
    rw [countNew_step2_zero, countNew_step4_zero]
    by_cases hm : j ∈ matched_new_of candidate_pairs thr
    · have hs : j ∉ merge_keys units_old.length units_new.length sim :=
        fun hs => hni ⟨hm, hs⟩
      simp only [merge_keys] at hs
      simp only [matched_new_of] at hm
      rw [countNew_step3_zero _ _ _ hs, countNew_step5_zero_matched _ _ _ _ _ hm]
      have := countNew_step1_le units_old units_new (matched_pairs_of candidate_pairs thr) j hnodup
      omega
    · simp only [matched_new_of] at hm
      rw [countNew_step1_zero _ _ _ _ hm]
      by_cases hmk : j ∈ merge_keys units_old.length units_new.length sim
      · simp only [merge_keys] at hmk
        rw [countNew_step5_zero_merge _ _ _ _ _ hmk]
        have := countNew_step3_le units_new
          (detect_merges units_old.length units_new.length sim) j
          (merge_keys_nodup units_old.length units_new.length sim)
        omega
      · simp only [merge_keys] at hmk
        rw [countNew_step3_zero _ _ _ hmk]
        have := countNew_step5_le units_new
          ((matched_pairs_of candidate_pairs thr).map (fun p => p.2.1))
          ((detect_merges units_old.length units_new.length sim).map (fun q => q.1))
          ((detect_splits units_old.length units_new.length sim).flatMap
            (fun q => q.2.map (fun p => p.1))) j
        omega
  · intro hm hs
    simp only [merge_keys] at hs
    simp only [matched_new_of] at hm
    simp only [generate_entries, countNewAdded_append]
    rw [countNewAdded_step1_zero]
    have h2 : countNewAdded j (step2_split_deleted units_old
        (detect_splits units_old.length units_new.length sim)) = 0 :=
      Nat.le_zero.mp (le_trans (countNewAdded_le_countNew _ _)
        (le_of_eq (countNew_step2_zero _ _ _)))
    have h3 : countNewAdded j (step3_merge_added units_new
        (detect_merges units_old.length units_new.length sim)) = 0 :=
      Nat.le_zero.mp (le_trans (countNewAdded_le_countNew _ _)
        (le_of_eq (countNew_step3_zero _ _ _ hs)))
    have h4 : countNewAdded j (step4_residual_deleted units_old
        ((matched_pairs_of candidate_pairs thr).map (fun p => p.1))
        ((detect_splits units_old.length units_new.length sim).map (fun q => q.1))) = 0 :=
      Nat.le_zero.mp (le_trans (countNewAdded_le_countNew _ _)
        (le_of_eq (countNew_step4_zero _ _ _ _)))
    have h5 : countNewAdded j (step5_residual_added units_new
        ((matched_pairs_of candidate_pairs thr).map (fun p => p.2.1))
        ((detect_merges units_old.length units_new.length sim).map (fun q => q.1))
        ((detect_splits units_old.length units_new.length sim).flatMap
          (fun q => q.2.map (fun p => p.1)))) = 0 :=
      Nat.le_zero.mp (le_trans (countNewAdded_le_countNew _ _)
        (le_of_eq (countNew_step5_zero_matched _ _ _ _ _ hm)))
    omega


theorem cex1_greedy : global_greedy_matching 1 2 cexSimSplit = [(0, 0, 9/10)] := by
  norm_num [global_greedy_matching, cexSimSplit, List.range_succ, sortDescThird,
    List.insertionSort, List.orderedInsert, descThird, greedyOneToOne, List.filterMap_cons, List.filterMap_nil, List.filter_cons, List.filter_nil, List.flatMap_cons, List.flatMap_nil, List.mem_cons, List.not_mem_nil, decide_eq_true_eq]

theorem cex_mp : matched_pairs_of [(0, 0, (9:ℚ)/10)] MATCH_THRESHOLD = [(0, 0, 9/10)] := by
  norm_num [matched_pairs_of, MATCH_THRESHOLD, sortDescThird, List.insertionSort,
    List.orderedInsert, descThird, keepMatched, List.filterMap_cons, List.filterMap_nil, List.filter_cons, List.filter_nil, List.flatMap_cons, List.flatMap_nil, List.mem_cons, List.not_mem_nil, decide_eq_true_eq]

theorem cex_splits : detect_splits 1 2 cexSimSplit = [(0, [(0, 9/10), (1, 2/5)])] := by
  norm_num [detect_splits, cexSimSplit, List.range_succ, sortDescSnd, List.insertionSort,
    List.orderedInsert, descSnd, SPLIT_UNIT_THRESH, SPLIT_SUM_THRESH, List.filterMap_cons, List.filterMap_nil, List.filter_cons, List.filter_nil, List.flatMap_cons, List.flatMap_nil, List.mem_cons, List.not_mem_nil, decide_eq_true_eq]

theorem cex_merges : detect_merges 1 2 cexSimSplit = [] := by
  norm_num [detect_merges, cexSimSplit, List.range_succ, sortDescSnd, List.insertionSort,
    List.orderedInsert, descSnd, MERGE_UNIT_THRESH, MERGE_SUM_THRESH, List.filterMap_cons, List.filterMap_nil, List.filter_cons, List.filter_nil, List.flatMap_cons, List.flatMap_nil, List.mem_cons, List.not_mem_nil, decide_eq_true_eq]

/-- C7: `normalize_for_compare` and `normalize_for_output` are
extensionally equal (they are the identical pipeline). -/
theorem claim7_normalizers_equal :
    ∀ t : Option String, normalize_for_compare t = normalize_for_output t :=
  fun _ => rfl

/-- C8: when both extracted corpora are empty the run returns an empty
changelog, and the result does not depend on the similarity oracle, the
matcher, or the threshold (they are never consulted). -/
theorem claim8_empty_corpora (arts_old arts_new : List ArticleJson)
    (simOf simOf2 : List String → List String → ℕ → ℕ → ℚ)
    (matcher matcher2 : ℕ → ℕ → (ℕ → ℕ → ℚ) → List (ℕ × ℕ × ℚ)) (thr thr2 : ℚ)
    (h_old : arts_old.flatMap extract_units = [])
    (h_new : arts_new.flatMap extract_units = []) :
    generate_mapping_model arts_old arts_new simOf matcher thr = [] ∧
    generate_mapping_model arts_old arts_new simOf matcher thr =
      generate_mapping_model arts_old arts_new simOf2 matcher2 thr2 := by
  constructor <;> simp [generate_mapping_model, h_old, h_new]

/-- Witness for C8 on two concretely empty inputs. -/
theorem claim8_witness :
    generate_mapping_model [] [] (fun _ _ _ _ => (0 : ℚ)) global_greedy_matching 1 = [] :=
  (claim8_empty_corpora [] [] (fun _ _ _ _ => (0 : ℚ)) (fun _ _ _ _ => (1 : ℚ))
    global_greedy_matching global_greedy_matching 1 0 rfl rfl).1

/-- C9: the synthesized changelog is a deterministic function of the two
documents, the similarity oracle, the matcher and the threshold. -/
theorem claim9_determinism (arts_old arts_old2 arts_new arts_new2 : List ArticleJson)
    (simOf simOf2 : List String → List String → ℕ → ℕ → ℚ)
    (matcher matcher2 : ℕ → ℕ → (ℕ → ℕ → ℚ) → List (ℕ × ℕ × ℚ)) (thr thr2 : ℚ)
    (h1 : arts_old = arts_old2) (h2 : arts_new = arts_new2) (h3 : simOf = simOf2)
    (h4 : matcher = matcher2) (h5 : thr = thr2) :
    generate_mapping_model arts_old arts_new simOf matcher thr =
      generate_mapping_model arts_old2 arts_new2 simOf2 matcher2 thr2 := by
  subst h1 h2 h3 h4 h5
  rfl

/-- Witness for C9 at a concrete input. -/
theorem claim9_witness :
    generate_mapping_model [⟨some "a1", some "1", some "x", []⟩] []
        (fun _ _ _ _ => (0 : ℚ)) global_greedy_matching MATCH_THRESHOLD =
      generate_mapping_model [⟨some "a1", some "1", some "x", []⟩] []
        (fun _ _ _ _ => (0 : ℚ)) global_greedy_matching MATCH_THRESHOLD :=
  claim9_determinism _ _ _ _ _ _ _ _ _ _ rfl rfl rfl rfl rfl

/-! ### Unit-extraction lemmas (C6) -/

/-- The emission helper, rewritten through truthiness. -/
theorem unitIfText_eq_ite (os : Option String) (mk : String → TextUnit) :
    unitIfText os mk = if truthy os then [mk (os.getD "")] else [] := by
  cases os with
  | none => rfl
  | some s => by_cases hs : s = "" <;> simp [unitIfText, truthy, hs]

/-- Length of the emission helper. -/
theorem length_unitIfText (os : Option String) (mk : String → TextUnit) :
    (unitIfText os mk).length = if truthy os then 1 else 0 := by
  rw [unitIfText_eq_ite]
  split <;> rfl

/-- Membership in the emission helper. -/
theorem mem_unitIfText {u : TextUnit} {os : Option String} {mk : String → TextUnit}
    (h : u ∈ unitIfText os mk) : truthy os = true ∧ u = mk (os.getD "") := by
  rw [unitIfText_eq_ite] at h
  split at h
  · next ht => exact ⟨ht, List.mem_singleton.mp h⟩
  · exact absurd h (List.not_mem_nil _)

/-- A truthy optional string is non-empty. -/
theorem truthy_getD {os : Option String} (h : truthy os = true) : os.getD "" ≠ "" := by
  cases os with
  | none => simp [truthy] at h
  | some s => simpa [truthy] using h

/-- Length of a per-point emission run. -/
theorem length_flatMap_unitIfText {α : Type} (l : List α) (ft : α → Option String)
    (mk : α → String → TextUnit) :
    (l.flatMap (fun x => unitIfText (ft x) (mk x))).length
      = (l.filter (fun x => truthy (ft x))).length := by
  induction l with
  | nil => rfl
  | cons x rest ih =>
    rw [List.flatMap_cons, List.length_append, ih, List.filter_cons, length_unitIfText]
    by_cases h : truthy (ft x) = true <;> simp [h, Nat.add_comm]

/-- C6 (amended): `extract_units` emits a unit exactly for each element
whose `full_text` field is present and non-empty as a raw string (Python
truthiness); every emitted unit has non-empty raw text, but the text is
not trimmed before the emptiness test. -/
theorem claim6_unit_emission (a : ArticleJson) :
    ((extract_units a).length =
      (if truthy a.full_text then 1 else 0) +
        (a.clauses.map (fun c => (if truthy c.full_text then 1 else 0) +
          (c.points.filter (fun p => truthy p.full_text)).length)).sum) ∧
    (∀ u ∈ extract_units a, u.text ≠ "") := by
  constructor
  · rw [extract_units, List.length_append, length_unitIfText, List.length_flatMap]
    congr 1
    refine congrArg List.sum (List.map_congr_left ?_)
    intro c hc
    simp only [Function.comp_apply]
    rw [List.length_append, length_unitIfText, length_flatMap_unitIfText]
  · intro u hu
    rw [extract_units, List.mem_append] at hu
    rcases hu with h | h
    · obtain ⟨ht, rfl⟩ := mem_unitIfText h
      exact truthy_getD ht
    · obtain ⟨c, hc, hcu⟩ := List.mem_flatMap.mp h
      rw [List.mem_append] at hcu
      rcases hcu with h2 | h2
      · obtain ⟨ht, rfl⟩ := mem_unitIfText h2
        exact truthy_getD ht
      · obtain ⟨p, hp, h3⟩ := List.mem_flatMap.mp h2
        obtain ⟨ht, rfl⟩ := mem_unitIfText h3
        exact truthy_getD ht

/-- C6 counterexample: a whitespace-only `full_text` (which trims to the
empty string) still contributes a unit. -/
theorem claim6_counterexample :
    extract_units ⟨some "a1", some "1", some " ", []⟩ =
      [⟨some "a1", some "1", none, none, " "⟩] ∧
    pyStripChars " ".data = [] := by
  constructor <;> decide

/-- Witness for C6 at a concrete article. -/
theorem claim6_witness :
    (extract_units ⟨some "a1", some "1", some "x", []⟩).length = 1 ∧
    (⟨some "a1", some "1", none, none, "x"⟩ : TextUnit).text ≠ "" := by
  constructor
  · have := (claim6_unit_emission ⟨some "a1", some "1", some "x", []⟩).1
    simpa [truthy] using this
  · exact (claim6_unit_emission ⟨some "a1", some "1", some "x", []⟩).2
      ⟨some "a1", some "1", none, none, "x"⟩ (by decide)

/-! ### Split/merge detector lemmas (C5) -/

/-- Membership in a guarded `filterMap` over a range of keys. -/
theorem mem_filterMap_range_guard {β : Type} (n : ℕ) (g : ℕ → β) (c : ℕ → Prop)
    [DecidablePred c] (i : ℕ) (l : β) :
    (i, l) ∈ (List.range n).filterMap (fun a => if c a then some (a, g a) else none) ↔
      i < n ∧ c i ∧ l = g i := by
  constructor
  · intro h
    obtain ⟨a, ha, hfa⟩ := List.mem_filterMap.mp h
    rw [List.mem_range] at ha
    split_ifs at hfa with hc
    obtain ⟨rfl, rfl⟩ := Prod.mk.injEq .. ▸ Option.some_injective _ hfa
    exact ⟨ha, hc, rfl⟩
  · rintro ⟨hi, hc, rfl⟩
    exact List.mem_filterMap.mpr ⟨i, List.mem_range.mpr hi, by rw [if_pos hc]⟩

/-- C5: the detector reports old unit `i` as a split exactly when more
than one new unit reaches per-unit similarity `0.35` and those
similarities sum to at least `0.75`; its recorded candidates are exactly
those new units with their similarities, in descending similarity order;
and symmetrically for merges. -/
theorem claim5_split_merge_characterization (n_old n_new : ℕ) (sim : ℕ → ℕ → ℚ) :
    (∀ i : ℕ,
      (∃ l, (i, l) ∈ detect_splits n_old n_new sim) ↔
        (i < n_old ∧
          1 < ((List.range n_new).filter (fun j => (35 : ℚ)/100 ≤ sim i j)).length ∧
          (75 : ℚ)/100 ≤ (((List.range n_new).filter (fun j => (35 : ℚ)/100 ≤ sim i j)).map
            (fun j => sim i j)).sum)) ∧
    (∀ i l, (i, l) ∈ detect_splits n_old n_new sim →
      (l.map (fun p => p.1)).Perm
          ((List.range n_new).filter (fun j => (35 : ℚ)/100 ≤ sim i j)) ∧
        (∀ p ∈ l, p.2 = sim i p.1) ∧ l.Sorted descSnd) ∧
    (∀ j : ℕ,
      (∃ l, (j, l) ∈ detect_merges n_old n_new sim) ↔
        (j < n_new ∧
          1 < ((List.range n_old).filter (fun i => (35 : ℚ)/100 ≤ sim i j)).length ∧
          (75 : ℚ)/100 ≤ (((List.range n_old).filter (fun i => (35 : ℚ)/100 ≤ sim i j)).map
            (fun i => sim i j)).sum)) ∧
    (∀ j l, (j, l) ∈ detect_merges n_old n_new sim →
      (l.map (fun p => p.1)).Perm
          ((List.range n_old).filter (fun i => (35 : ℚ)/100 ≤ sim i j)) ∧
        (∀ p ∈ l, p.2 = sim p.1 j) ∧ l.Sorted descSnd) := by
  have h35 : SPLIT_UNIT_THRESH = (35 : ℚ)/100 := by norm_num [SPLIT_UNIT_THRESH]
  have h75 : SPLIT_SUM_THRESH = (75 : ℚ)/100 := by norm_num [SPLIT_SUM_THRESH]
  have h35m : MERGE_UNIT_THRESH = (35 : ℚ)/100 := by norm_num [MERGE_UNIT_THRESH]
  have h75m : MERGE_SUM_THRESH = (75 : ℚ)/100 := by norm_num [MERGE_SUM_THRESH]
  have hsplit : detect_splits n_old n_new sim =
      (List.range n_old).filterMap (fun i =>
        if (1 < (sortDescSnd (((List.range n_new).filter
              (fun j => (35 : ℚ)/100 ≤ sim i j)).map (fun j => (j, sim i j)))).length ∧
            (75 : ℚ)/100 ≤ ((sortDescSnd (((List.range n_new).filter
              (fun j => (35 : ℚ)/100 ≤ sim i j)).map (fun j => (j, sim i j)))).map
                (fun p => p.2)).sum) then
          some (i, sortDescSnd (((List.range n_new).filter
            (fun j => (35 : ℚ)/100 ≤ sim i j)).map (fun j => (j, sim i j))))
        else none) := by
    rw [detect_splits]
    simp only [h35, h75]
  have hmerge : detect_merges n_old n_new sim =
      (List.range n_new).filterMap (fun j =>
        if (1 < (sortDescSnd (((List.range n_old).filter
              (fun i => (35 : ℚ)/100 ≤ sim i j)).map (fun i => (i, sim i j)))).length ∧
            (75 : ℚ)/100 ≤ ((sortDescSnd (((List.range n_old).filter
              (fun i => (35 : ℚ)/100 ≤ sim i j)).map (fun i => (i, sim i j)))).map
                (fun p => p.2)).sum) then
          some (j, sortDescSnd (((List.range n_old).filter
            (fun i => (35 : ℚ)/100 ≤ sim i j)).map (fun i => (i, sim i j))))
        else none) := by
    rw [detect_merges]
    simp only [h35m, h75m]
  have hperm : ∀ (M : List (ℕ × ℚ)), (sortDescSnd M).Perm M :=
    fun M => List.perm_insertionSort descSnd M
  have hlen : ∀ (M : List (ℕ × ℚ)), (sortDescSnd M).length = M.length :=
    fun M => (hperm M).length_eq
  have hsum : ∀ (M : List (ℕ × ℚ)), ((sortDescSnd M).map (fun p => p.2)).sum
      = (M.map (fun p => p.2)).sum :=
    fun M => ((hperm M).map (fun p => p.2)).sum_eq
  refine ⟨?_, ?_, ?_, ?_⟩
  · intro i
    rw [hsplit]
    constructor
    · rintro ⟨l, hl⟩
      obtain ⟨hi, hc, rfl⟩ := (mem_filterMap_range_guard _ _ _ _ _).mp hl
      refine ⟨hi, ?_, ?_⟩
      · have := hc.1
        rwa [hlen, List.length_map] at this
      · have := hc.2
        rwa [hsum, List.map_map] at this
    · rintro ⟨hi, h1, h2⟩
      refine ⟨_, (mem_filterMap_range_guard _ _ _ _ _).mpr ⟨hi, ⟨?_, ?_⟩, rfl⟩⟩
      · rwa [hlen, List.length_map]
      · rwa [hsum, List.map_map]
  · intro i l hl
    rw [hsplit] at hl
    obtain ⟨hi, hc, rfl⟩ := (mem_filterMap_range_guard _ _ _ _ _).mp hl
    refine ⟨?_, ?_, ?_⟩
    · have hp1 := (hperm (((List.range n_new).filter
          (fun j => (35 : ℚ)/100 ≤ sim i j)).map (fun j => (j, sim i j)))).map
        (fun p => p.1)
      have hid : List.map ((fun p : ℕ × ℚ => p.1) ∘ fun j => (j, sim i j))
          ((List.range n_new).filter (fun j => (35 : ℚ)/100 ≤ sim i j)) =
          (List.range n_new).filter (fun j => (35 : ℚ)/100 ≤ sim i j) := by
        rw [show ((fun p : ℕ × ℚ => p.1) ∘ fun j => (j, sim i j)) = fun j => j from rfl]
        exact List.map_id' _
      rw [List.map_map, hid] at hp1
      exact hp1
    · intro p hp
      have hp2 := (hperm _).mem_iff.mp hp
      obtain ⟨j, hj, rfl⟩ := List.mem_map.mp hp2
      rfl
    · exact List.sorted_insertionSort descSnd _
  · intro j
    rw [hmerge]
    constructor
    · rintro ⟨l, hl⟩
      obtain ⟨hj, hc, rfl⟩ := (mem_filterMap_range_guard _ _ _ _ _).mp hl
      refine ⟨hj, ?_, ?_⟩
      · have := hc.1
        rwa [hlen, List.length_map] at this
      · have := hc.2
        rwa [hsum, List.map_map] at this
    · rintro ⟨hj, h1, h2⟩
      refine ⟨_, (mem_filterMap_range_guard _ _ _ _ _).mpr ⟨hj, ⟨?_, ?_⟩, rfl⟩⟩
      · rwa [hlen, List.length_map]
      · rwa [hsum, List.map_map]
  · intro j l hl
    rw [hmerge] at hl
    obtain ⟨hj, hc, rfl⟩ := (mem_filterMap_range_guard _ _ _ _ _).mp hl
    refine ⟨?_, ?_, ?_⟩
    · have hp1 := (hperm (((List.range n_old).filter
          (fun i => (35 : ℚ)/100 ≤ sim i j)).map (fun i => (i, sim i j)))).map
        (fun p => p.1)
      have hid : List.map ((fun p : ℕ × ℚ => p.1) ∘ fun i => (i, sim i j))
          ((List.range n_old).filter (fun i => (35 : ℚ)/100 ≤ sim i j)) =
          (List.range n_old).filter (fun i => (35 : ℚ)/100 ≤ sim i j) := by
        rw [show ((fun p : ℕ × ℚ => p.1) ∘ fun i => (i, sim i j)) = fun i => i from rfl]
        exact List.map_id' _
      rw [List.map_map, hid] at hp1
      exact hp1
    · intro p hp
      have hp2 := (hperm _).mem_iff.mp hp
      obtain ⟨i, hi, rfl⟩ := List.mem_map.mp hp2
      rfl
    · exact List.sorted_insertionSort descSnd _

/-- Witness for C5: on a concrete matrix, old unit 0 is reported as a
split. -/
theorem claim5_witness : ∃ l, (0, l) ∈ detect_splits 1 2 cexSimSplit :=
  ((claim5_split_merge_characterization 1 2 cexSimSplit).1 0).mpr
    ⟨by norm_num,
      by norm_num [cexSimSplit, List.range_succ, List.filter_cons, List.filter_nil,
        decide_eq_true_eq],
      by norm_num [cexSimSplit, List.range_succ, List.filter_cons, List.filter_nil,
        decide_eq_true_eq]⟩

/-! ### Leading-marker lemmas (C10) -/

/-- A digit is not whitespace. -/
theorem not_space_of_digit {c : Char} (h : isAsciiDigit c = true) : pyIsSpace c = false := by
  simp only [isAsciiDigit, Bool.and_eq_true, decide_eq_true_eq] at h
  simp only [pyIsSpace, Bool.or_eq_true, decide_eq_true_eq]
  rw [Bool.or_eq_false_iff, Bool.or_eq_false_iff, Bool.or_eq_false_iff, Bool.or_eq_false_iff,
    Bool.or_eq_false_iff]
  refine ⟨⟨⟨⟨⟨?_, ?_⟩, ?_⟩, ?_⟩, ?_⟩, ?_⟩ <;> · simp only [decide_eq_false_iff_not]; omega

/-- A marker letter is not whitespace. -/
theorem not_space_of_markLetter {c : Char} (h : isMarkLetter c = true) :
    pyIsSpace c = false := by
  simp only [isMarkLetter, Bool.or_eq_true, Bool.and_eq_true, decide_eq_true_eq] at h
  simp only [pyIsSpace]
  rw [Bool.or_eq_false_iff, Bool.or_eq_false_iff, Bool.or_eq_false_iff, Bool.or_eq_false_iff,
    Bool.or_eq_false_iff]
  refine ⟨⟨⟨⟨⟨?_, ?_⟩, ?_⟩, ?_⟩, ?_⟩, ?_⟩ <;> · simp only [decide_eq_false_iff_not]; omega

/-- A marker letter is not a digit. -/
theorem not_digit_of_markLetter {c : Char} (h : isMarkLetter c = true) :
    isAsciiDigit c = false := by
  simp only [isMarkLetter, Bool.or_eq_true, Bool.and_eq_true, decide_eq_true_eq] at h
  simp only [isAsciiDigit]
  rw [Bool.and_eq_false_iff]
  simp only [decide_eq_false_iff_not]
  omega

/-- Dropping a satisfied prefix. -/
theorem dropWhile_append_all {p : Char → Bool} : ∀ {l1 : List Char} (l2 : List Char),
    l1.all p = true → (l1 ++ l2).dropWhile p = l2.dropWhile p := by
  intro l1
  induction l1 with
  | nil => intro l2 _; rfl
  | cons a t ih =>
    intro l2 h
    rw [List.all_cons, Bool.and_eq_true] at h
    rw [List.cons_append, List.dropWhile_cons_of_pos h.1]
    exact ih l2 h.2

/-- Dropping nothing when the head fails the predicate. -/
theorem dropWhile_cons_false {p : Char → Bool} {c : Char} (t : List Char)
    (h : p c = false) : (c :: t).dropWhile p = c :: t := by
  rw [List.dropWhile_cons_of_neg]
  rw [h]
  exact Bool.false_ne_true

/-- Structure of a marker token. -/
theorem isMarkTok_shape {m : List Char} (h : isMarkTok m = true) :
    ∃ core p, m = core ++ [p] ∧ (p = '.' ∨ p = ')') ∧ core ≠ [] ∧
      (core.all isAsciiDigit = true ∨ ∃ c, core = [c] ∧ isMarkLetter c = true) := by
  rw [isMarkTok] at h
  simp only [Bool.and_eq_true, Bool.or_eq_true, decide_eq_true_eq] at h
  obtain ⟨⟨hne_core, hcls⟩, hlast⟩ := h
  have hne : m ≠ [] := by
    intro h0
    rw [h0] at hne_core
    exact hne_core rfl
  refine ⟨m.dropLast, m.getLast hne, (List.dropLast_append_getLast hne).symm, ?_, hne_core, ?_⟩
  · rcases hlast with hl | hl
    · rw [List.getLast?_eq_getLast _ hne] at hl
      exact Or.inl (Option.some_injective _ hl)
    · rw [List.getLast?_eq_getLast _ hne] at hl
      exact Or.inr (Option.some_injective _ hl)
  · rcases hcls with hd | ⟨hlen, hml⟩
    · exact Or.inl hd
    · obtain ⟨c, hc⟩ := List.length_eq_one.mp hlen
      refine Or.inr ⟨c, hc, ?_⟩
      rw [hc] at hml
      simpa using hml

/-- A marker token starts with a non-whitespace, non-removed character. -/
theorem markTok_head_not_space {m : List Char} (h : isMarkTok m = true) :
    ∃ c t, m = c :: t ∧ pyIsSpace c = false := by
  obtain ⟨core, p, rfl, hp, hne, hcls⟩ := isMarkTok_shape h
  cases core with
  | nil => exact absurd rfl hne
  | cons c t =>
    refine ⟨c, t ++ [p], rfl, ?_⟩
    rcases hcls with hd | ⟨c2, hc2, hml⟩
    · rw [List.all_cons, Bool.and_eq_true] at hd
      exact not_space_of_digit hd.1
    · have h12 : c = c2 ∧ t = [] := by
        simpa using hc2
      rw [h12.1]
      exact not_space_of_markLetter hml

/-- The anchored substitution removes exactly one leading marker: on input
built from two consecutive marker tokens (optionally separated by
whitespace), the second token survives at the head of the result. -/
theorem leadingMarkSub_strips_one (m1 ws m2 r : List Char)
    (h1 : isMarkTok m1 = true) (h2 : isMarkTok m2 = true)
    (hws : ws.all pyIsSpace = true) :
    leadingMarkSub (m1 ++ (ws ++ (m2 ++ r))) = m2 ++ r := by
  obtain ⟨core, p, rfl, hp, hne, hcls⟩ := isMarkTok_shape h1
  obtain ⟨c2, t2, hm2, hc2ns⟩ := markTok_head_not_space h2
  have hpd : isAsciiDigit p = false := by
    rcases hp with rfl | rfl <;> decide
  have htail : (ws ++ (m2 ++ r)).dropWhile pyIsSpace = m2 ++ r := by
    rw [dropWhile_append_all _ hws, hm2, List.cons_append, dropWhile_cons_false _ hc2ns,
      ← List.cons_append, ← hm2]
  cases core with
  | nil => exact absurd rfl hne
  | cons c t =>
    have hform : ((c :: t) ++ [p]) ++ (ws ++ (m2 ++ r))
        = c :: (t ++ (p :: (ws ++ (m2 ++ r)))) := by
      simp [List.cons_append, List.append_assoc]
    rcases hcls with hd | ⟨cl, hcl, hml⟩
    · rw [List.all_cons, Bool.and_eq_true] at hd
      have hcns : pyIsSpace c = false := not_space_of_digit hd.1
      have hscrut : (t ++ (p :: (ws ++ (m2 ++ r)))).dropWhile isAsciiDigit
          = p :: (ws ++ (m2 ++ r)) := by
        rw [show t ++ (p :: (ws ++ (m2 ++ r))) = t ++ ([p] ++ (ws ++ (m2 ++ r))) from by simp,
          dropWhile_append_all _ hd.2, List.singleton_append, dropWhile_cons_false _ hpd]
      have hmg : markGroup (c :: (t ++ (p :: (ws ++ (m2 ++ r))))) = some (m2 ++ r) := by
        simp only [markGroup]
        rw [if_pos hd.1, hscrut]
        show (if p = '.' ∨ p = ')' then some ((ws ++ (m2 ++ r)).dropWhile pyIsSpace)
          else none) = some (m2 ++ r)
        rw [if_pos hp, htail]
      rw [leadingMarkSub, hform, dropWhile_cons_false _ hcns, hmg]
    · have h12 : c = cl ∧ t = [] := by
        simpa using hcl
      obtain ⟨rfl, rfl⟩ := h12
      have hcns : pyIsSpace c = false := not_space_of_markLetter hml
      have hcnd : isAsciiDigit c = false := not_digit_of_markLetter hml
      have hmg : markGroup (c :: ([] ++ (p :: (ws ++ (m2 ++ r))))) = some (m2 ++ r) := by
        simp only [markGroup, List.nil_append]
        rw [if_neg (by rw [hcnd]; exact Bool.false_ne_true), if_pos hml]
        show (if p = '.' ∨ p = ')' then some ((ws ++ (m2 ++ r)).dropWhile pyIsSpace)
          else none) = some (m2 ++ r)
        rw [if_pos hp, htail]
      rw [leadingMarkSub, hform, dropWhile_cons_false _ hcns, hmg]

/-- C10: the normalizer strips at most one leading structural marker per
call — on text beginning with two consecutive markers only the first is
removed and the second remains at the head — so normalization is not
idempotent in general. -/
theorem claim10_single_marker_strip :
    (∀ (m1 ws m2 r : List Char), isMarkTok m1 = true → isMarkTok m2 = true →
      ws.all pyIsSpace = true →
      leadingMarkSub (m1 ++ (ws ++ (m2 ++ r))) = m2 ++ r) ∧
    normalize_for_compare (some (normalize_for_compare (some "1. a) text"))) ≠
      normalize_for_compare (some "1. a) text") := by
  constructor
  · intro m1 ws m2 r h1 h2 hws
    exact leadingMarkSub_strips_one m1 ws m2 r h1 h2 hws
  · decide

/-- Witness for C10 on the concrete marker pair of the claim. -/
theorem claim10_witness :
    leadingMarkSub ("1.".data ++ (" ".data ++ ("a)".data ++ " text".data)))
      = "a)".data ++ " text".data :=
  claim10_single_marker_strip.1 "1.".data " ".data "a)".data " text".data
    (by decide) (by decide) (by decide)

/-! ### Greedy matching lemmas (C3) -/

/-- The greedy loop accepts nothing when every candidate is already
claimed. -/
theorem greedy_skip_all : ∀ (l : List (ℕ × ℕ × ℚ)) (mo mn : List ℕ),
    (∀ p ∈ l, p.1 ∈ mo ∨ p.2.1 ∈ mn) → greedyOneToOne l mo mn = [] := by
  intro l
  induction l with
  | nil => intro mo mn _; rfl
  | cons a rest ih =>
    intro mo mn h
    rw [greedyOneToOne, if_pos (h a (List.mem_cons_self a rest))]
    exact ih mo mn (fun p hp => h p (List.mem_cons_of_mem a hp))

/-- On a diagonal block followed by candidates whose rows are all covered
by the block or already claimed, the greedy loop accepts only block
elements and covers every block row. -/
theorem greedy_diag : ∀ (ones : List (ℕ × ℕ × ℚ)) (rest : List (ℕ × ℕ × ℚ)) (mo mn : List ℕ),
    (∀ p ∈ ones, p.2.1 = p.1) →
    (∀ p ∈ rest, p.1 ∈ mo ∨ p.1 ∈ ones.map (fun q => q.1)) →
    (∀ x : ℕ, x ∈ mo ↔ x ∈ mn) →
    (∀ p ∈ greedyOneToOne (ones ++ rest) mo mn, p ∈ ones) ∧
    (∀ i, i ∈ ones.map (fun q => q.1) →
      i ∈ mo ∨ i ∈ (greedyOneToOne (ones ++ rest) mo mn).map (fun q => q.1)) := by
  intro ones
  induction ones with
  | nil =>
    intro rest mo mn _ hrest hiff
    rw [List.nil_append, greedy_skip_all rest mo mn (fun p hp => by
      rcases hrest p hp with h | h
      · exact Or.inl h
      · simp at h)]
    constructor
    · intro p hp
      exact absurd hp (List.not_mem_nil p)
    · intro i hi
      simp at hi
  | cons a ones' ih =>
    intro rest mo mn hdiag hrest hiff
    have ha : a.2.1 = a.1 := hdiag a (List.mem_cons_self a ones')
    rw [List.cons_append, greedyOneToOne]
    by_cases hcl : a.1 ∈ mo ∨ a.2.1 ∈ mn
    · have hamo : a.1 ∈ mo := by
        rcases hcl with h | h
        · exact h
        · rw [ha] at h
          exact (hiff a.1).mpr h
      rw [if_pos hcl]
      have IH := ih rest mo mn (fun p hp => hdiag p (List.mem_cons_of_mem a hp))
        (fun p hp => by
          rcases hrest p hp with h | h
          · exact Or.inl h
          · rw [List.map_cons, List.mem_cons] at h
            rcases h with h | h
            · exact Or.inl (h ▸ hamo)
            · exact Or.inr h)
        hiff
      constructor
      · intro p hp
        exact List.mem_cons_of_mem a (IH.1 p hp)
      · intro i hi
        rw [List.map_cons, List.mem_cons] at hi
        rcases hi with rfl | hi
        · exact Or.inl hamo
        · exact IH.2 i hi
    · rw [if_neg hcl]
      have hiff2 : ∀ x : ℕ, x ∈ a.1 :: mo ↔ x ∈ a.2.1 :: mn := by
        intro x
        rw [ha, List.mem_cons, List.mem_cons, hiff x]
      have IH := ih rest (a.1 :: mo) (a.2.1 :: mn)
        (fun p hp => hdiag p (List.mem_cons_of_mem a hp))
        (fun p hp => by
          rcases hrest p hp with h | h
          · exact Or.inl (List.mem_cons_of_mem _ h)
          · rw [List.map_cons, List.mem_cons] at h
            rcases h with h | h
            · exact Or.inl (h ▸ List.mem_cons_self _ _)
            · exact Or.inr h)
        hiff2
      constructor
      · intro p hp
        rcases List.mem_cons.mp hp with rfl | hp
        · exact List.mem_cons_self _ _
        · exact List.mem_cons_of_mem a (IH.1 p hp)
      · intro i hi
        rw [List.map_cons, List.mem_cons] at hi
        rcases hi with rfl | hi
        · exact Or.inr (by
            rw [List.map_cons]
            exact List.mem_cons_self _ _)
        · rcases IH.2 i hi with h | h
          · rcases List.mem_cons.mp h with rfl | h
            · exact Or.inr (by
                rw [List.map_cons]
                exact List.mem_cons_self _ _)
            · exact Or.inl h
          · exact Or.inr (by
              rw [List.map_cons]
              exact List.mem_cons_of_mem _ h)

/-- The post-filter keeps covering every row of an all-diagonal,
all-above-threshold list. -/
theorem keepMatched_covers : ∀ (l : List (ℕ × ℕ × ℚ)) (mo mn : List ℕ) (thr : ℚ),
    (∀ p ∈ l, p.2.1 = p.1 ∧ thr ≤ p.2.2) →
    (∀ x : ℕ, x ∈ mo ↔ x ∈ mn) →
    ∀ i, i ∈ l.map (fun q => q.1) →
      i ∈ mo ∨ i ∈ (keepMatched l mo mn thr).map (fun q => q.1) := by
  intro l
  induction l with
  | nil =>
    intro mo mn thr _ _ i hi
    simp at hi
  | cons a l' ih =>
    intro mo mn thr h hiff i hi
    obtain ⟨had, has⟩ := h a (List.mem_cons_self a l')
    rw [keepMatched]
    by_cases hcl : a.1 ∈ mo ∨ a.2.1 ∈ mn
    · have hamo : a.1 ∈ mo := by
        rcases hcl with hc | hc
        · exact hc
        · rw [had] at hc
          exact (hiff a.1).mpr hc
      rw [if_pos hcl]
      rw [List.map_cons, List.mem_cons] at hi
      rcases hi with rfl | hi
      · exact Or.inl hamo
      · exact ih mo mn thr (fun p hp => h p (List.mem_cons_of_mem a hp)) hiff i hi
    · rw [if_neg hcl, if_pos has]
      rw [List.map_cons, List.mem_cons] at hi
      rcases hi with rfl | hi
      · exact Or.inr (by
          rw [List.map_cons]
          exact List.mem_cons_self _ _)
      · have hiff2 : ∀ x : ℕ, x ∈ a.1 :: mo ↔ x ∈ a.2.1 :: mn := by
          intro x
          rw [had, List.mem_cons, List.mem_cons, hiff x]
        rcases ih (a.1 :: mo) (a.2.1 :: mn) thr
            (fun p hp => h p (List.mem_cons_of_mem a hp)) hiff2 i hi with hc | hc
        · rcases List.mem_cons.mp hc with rfl | hc
          · exact Or.inr (by
              rw [List.map_cons]
              exact List.mem_cons_self _ _)
          · exact Or.inl hc
        · exact Or.inr (by
            rw [List.map_cons]
            exact List.mem_cons_of_mem _ hc)

/-- A duplicate-free list all of whose members are equal has at most one
member. -/
theorem nodup_all_eq_length_le_one : ∀ (l : List ℕ) (i : ℕ), l.Nodup →
    (∀ x ∈ l, x = i) → l.length ≤ 1 := by
  intro l i hnd hall
  cases l with
  | nil => exact Nat.zero_le 1
  | cons x xs =>
    cases xs with
    | nil => exact Nat.le_refl 1
    | cons y ys =>
      exfalso
      rw [List.nodup_cons] at hnd
      refine hnd.1 ?_
      have hx : x = i := hall x (List.mem_cons_self _ _)
      have hy : y = i := hall y (List.mem_cons_of_mem _ (List.mem_cons_self _ _))
      rw [hx, ← hy]
      exact List.mem_cons_self _ _

/-- Beyond the high-score prefix of a descending-sorted candidate list,
every score is below one. -/
theorem dropWhile_lt_one : ∀ (L : List (ℕ × ℕ × ℚ)), L.Sorted descThird →
    ∀ p ∈ L.dropWhile (fun q => decide (1 ≤ q.2.2)), p.2.2 < 1 := by
  intro L
  induction L with
  | nil => intro _ p hp; simp at hp
  | cons a L' ih =>
    intro hs p hp
    rw [List.sorted_cons] at hs
    rw [List.dropWhile_cons] at hp
    by_cases ha : (1 : ℚ) ≤ a.2.2
    · rw [if_pos (by simpa using ha)] at hp
      exact ih hs.2 p hp
    · rw [if_neg (by simpa using ha)] at hp
      rcases List.mem_cons.mp hp with rfl | hp
      · exact lt_of_not_le ha
      · exact lt_of_le_of_lt (hs.1 p hp) (lt_of_not_le ha)

/-- On a self-comparison matrix (unit diagonal, off-diagonal below the
per-unit threshold) no split is detected. -/
theorem detect_splits_self_nil (n : ℕ) (sim : ℕ → ℕ → ℚ)
    (hoff : ∀ i j, i ≠ j → sim i j < 35/100) :
    detect_splits n n sim = [] := by
  have hst : SPLIT_UNIT_THRESH = 35/100 := by norm_num [SPLIT_UNIT_THRESH]
  rw [detect_splits, List.filterMap_eq_nil_iff]
  intro i _
  rw [if_neg]
  intro hc
  have hlen := hc.1
  have hple := (List.perm_insertionSort descSnd (((List.range n).filter
    (fun j => SPLIT_UNIT_THRESH ≤ sim i j)).map (fun j => (j, sim i j)))).length_eq
  rw [sortDescSnd] at hlen
  rw [hple, List.length_map] at hlen
  have hle1 : ((List.range n).filter (fun j => SPLIT_UNIT_THRESH ≤ sim i j)).length ≤ 1 := by
    refine nodup_all_eq_length_le_one _ i (List.Nodup.filter _ (List.nodup_range n)) ?_
    intro x hx
    rw [List.mem_filter] at hx
    by_contra hxi
    have h1 : sim i x < 35/100 := hoff i x (fun he => hxi he.symm)
    have h2 : SPLIT_UNIT_THRESH ≤ sim i x := by
      have := hx.2
      simpa using this
    rw [hst] at h2
    linarith
  omega

/-- On a self-comparison matrix no merge is detected. -/
theorem detect_merges_self_nil (n : ℕ) (sim : ℕ → ℕ → ℚ)
    (hoff : ∀ i j, i ≠ j → sim i j < 35/100) :
    detect_merges n n sim = [] := by
  have hst : MERGE_UNIT_THRESH = 35/100 := by norm_num [MERGE_UNIT_THRESH]
  rw [detect_merges, List.filterMap_eq_nil_iff]
  intro j _
  rw [if_neg]
  intro hc
  have hlen := hc.1
  have hple := (List.perm_insertionSort descSnd (((List.range n).filter
    (fun i => MERGE_UNIT_THRESH ≤ sim i j)).map (fun i => (i, sim i j)))).length_eq
  rw [sortDescSnd] at hlen
  rw [hple, List.length_map] at hlen
  have hle1 : ((List.range n).filter (fun i => MERGE_UNIT_THRESH ≤ sim i j)).length ≤ 1 := by
    refine nodup_all_eq_length_le_one _ j (List.Nodup.filter _ (List.nodup_range n)) ?_
    intro x hx
    rw [List.mem_filter] at hx
    by_contra hxj
    have h1 : sim x j < 35/100 := hoff x j hxj
    have h2 : MERGE_UNIT_THRESH ≤ sim x j := by
      have := hx.2
      simpa using this
    rw [hst] at h2
    linarith
  omega

/-- Core of the amended idempotence claim: on equal unit lists with a
self-comparison similarity matrix (unit diagonal, off-diagonal below the
split/merge per-unit threshold 0.35) and any threshold at most 1, the
greedy pipeline synthesizes an empty changelog. -/
theorem self_compare_empty (units : List TextUnit) (sim : ℕ → ℕ → ℚ) (thr : ℚ)
    (hthr : thr ≤ 1)
    (hdiag : ∀ i, i < units.length → sim i i = 1)
    (hoff : ∀ i j, i ≠ j → sim i j < 35/100) :
    generate_entries units units sim
      (global_greedy_matching units.length units.length sim) thr = [] := by
  simp only [generate_entries, global_greedy_matching]
  set cand := (List.range units.length).flatMap (fun r =>
    (List.range units.length).filterMap (fun c =>
      if (0 : ℚ) ≤ sim r c then some (r, c, sim r c) else none)) with hcand
  set L := sortDescThird cand with hL
  set gm := greedyOneToOne L [] [] with hgm
  set mp := matched_pairs_of gm thr with hmp
  set ones := L.takeWhile (fun q => decide (1 ≤ q.2.2)) with hones
  set rest := L.dropWhile (fun q => decide (1 ≤ q.2.2)) with hrest
  -- facts about candidates
  have hcand_mem : ∀ p ∈ cand, p.1 < units.length ∧ p.2.1 < units.length ∧
      p.2.2 = sim p.1 p.2.1 := by
    intro p hp
    rw [hcand] at hp
    obtain ⟨r, hr, hpin⟩ := List.mem_flatMap.mp hp
    obtain ⟨c, hc, hfc⟩ := List.mem_filterMap.mp hpin
    rw [List.mem_range] at hr hc
    split_ifs at hfc
    rw [← Option.some_injective _ hfc]
    exact ⟨hr, hc, rfl⟩
  have hcand_diag_mem : ∀ i, i < units.length → (i, i, (1 : ℚ)) ∈ cand := by
    intro i hi
    rw [hcand]
    refine List.mem_flatMap.mpr ⟨i, List.mem_range.mpr hi, ?_⟩
    refine List.mem_filterMap.mpr ⟨i, List.mem_range.mpr hi, ?_⟩
    rw [hdiag i hi, if_pos (by norm_num)]
  have hcand_one_diag : ∀ p ∈ cand, (1 : ℚ) ≤ p.2.2 → p.2.1 = p.1 ∧ p.2.2 = 1 := by
    intro p hp hone
    obtain ⟨h1, _, h3⟩ := hcand_mem p hp
    by_cases hd : p.1 = p.2.1
    · refine ⟨hd.symm, ?_⟩
      rw [h3, ← hd, hdiag p.1 h1]
    · exfalso
      have hlt := hoff p.1 p.2.1 hd
      rw [← h3] at hlt
      linarith
  -- the sorted candidate list and its high-score prefix
  have hLperm : L.Perm cand := by
    rw [hL, sortDescThird]
    exact List.perm_insertionSort descThird cand
  have hLsorted : L.Sorted descThird := by
    rw [hL, sortDescThird]
    exact List.sorted_insertionSort descThird cand
  have hOR : ones ++ rest = L := by
    rw [hones, hrest]
    exact List.takeWhile_append_dropWhile _ _
  have hones_facts : ∀ p ∈ ones, p.2.1 = p.1 ∧ p.2.2 = 1 ∧ p.1 < units.length := by
    intro p hp
    have hp1 : (1 : ℚ) ≤ p.2.2 := by
      have := List.mem_takeWhile_imp (hones ▸ hp)
      simpa using this
    have hpL : p ∈ L := (List.takeWhile_sublist _).subset (hones ▸ hp)
    have hpc : p ∈ cand := hLperm.mem_iff.mp hpL
    obtain ⟨hd, h1⟩ := hcand_one_diag p hpc hp1
    exact ⟨hd, h1, (hcand_mem p hpc).1⟩
  have hrest_lt : ∀ p ∈ rest, p.2.2 < 1 := by
    intro p hp
    exact dropWhile_lt_one L hLsorted p (hrest ▸ hp)
  have hcover_ones : ∀ i, i < units.length → i ∈ ones.map (fun q => q.1) := by
    intro i hi
    have hmem : (i, i, (1 : ℚ)) ∈ ones ++ rest := by
      rw [hOR]
      exact hLperm.mem_iff.mpr (hcand_diag_mem i hi)
    rcases List.mem_append.mp hmem with h | h
    · exact List.mem_map_of_mem _ h
    · exact absurd (hrest_lt _ h) (by norm_num)
  have hrest_rows : ∀ p ∈ rest, p.1 ∈ ([] : List ℕ) ∨ p.1 ∈ ones.map (fun q => q.1) := by
    intro p hp
    have hpL : p ∈ L := (List.dropWhile_sublist _).subset (hrest ▸ hp)
    have hpc : p ∈ cand := hLperm.mem_iff.mp hpL
    exact Or.inr (hcover_ones p.1 (hcand_mem p hpc).1)
  -- greedy accepts only diagonal pairs and covers every index
  have hgd := greedy_diag ones rest [] []
    (fun p hp => (hones_facts p hp).1) hrest_rows (fun x => Iff.rfl)
  have hgm_eq : greedyOneToOne (ones ++ rest) [] [] = gm := by
    rw [hOR, hgm]
  rw [hgm_eq] at hgd
  have hgm_sub : ∀ p ∈ gm, p ∈ ones := hgd.1
  have hgm_cover : ∀ i, i < units.length → i ∈ gm.map (fun q => q.1) := by
    intro i hi
    rcases hgd.2 i (hcover_ones i hi) with h | h
    · exact absurd h (List.not_mem_nil i)
    · exact h
  -- the post-filter keeps everything relevant
  have hperm2 : (sortDescThird gm).Perm gm := by
    rw [sortDescThird]
    exact List.perm_insertionSort descThird gm
  have hs2 : ∀ p ∈ sortDescThird gm, p.2.1 = p.1 ∧ thr ≤ p.2.2 := by
    intro p hp
    have hpo := hgm_sub p (hperm2.mem_iff.mp hp)
    obtain ⟨hd, h1, _⟩ := hones_facts p hpo
    exact ⟨hd, by rw [h1]; exact hthr⟩
  have hmpe : mp = keepMatched (sortDescThird gm) [] [] thr := by
    rw [hmp, matched_pairs_of]
  have hmp_diag : ∀ p ∈ mp, p.2.1 = p.1 := by
    intro p hp
    rw [hmpe] at hp
    exact (hs2 p (keepMatched_subset _ _ _ _ p hp)).1
  have hmp_cover : ∀ i, i < units.length → i ∈ mp.map (fun q => q.1) := by
    intro i hi
    have h1 : i ∈ (sortDescThird gm).map (fun q => q.1) :=
      ((hperm2.map (fun q => q.1)).mem_iff).mpr (hgm_cover i hi)
    rcases keepMatched_covers (sortDescThird gm) [] [] thr hs2 (fun x => Iff.rfl) i h1 with h | h
    · exact absurd h (List.not_mem_nil i)
    · rw [hmpe]
      exact h
  have hmp_cover_snd : ∀ j, j < units.length → j ∈ mp.map (fun q => q.2.1) := by
    intro j hj
    obtain ⟨p, hp, hpj⟩ := List.mem_map.mp (hmp_cover j hj)
    refine List.mem_map.mpr ⟨p, hp, ?_⟩
    rw [hmp_diag p hp, hpj]
  -- the five steps all vanish
  have hsplits : detect_splits units.length units.length sim = [] :=
    detect_splits_self_nil units.length sim hoff
  have hmerges : detect_merges units.length units.length sim = [] :=
    detect_merges_self_nil units.length sim hoff
  have hstep1 : step1_modified units units mp = [] := by
    rw [step1_modified, List.filterMap_eq_nil_iff]
    intro p hp
    simp [hmp_diag p hp]
  have hstep4 : ∀ so, step4_residual_deleted units (mp.map (fun p => p.1)) so = [] := by
    intro so
    rw [step4_residual_deleted, List.filterMap_eq_nil_iff]
    intro i hi
    rw [if_pos (hmp_cover i (List.mem_range.mp hi))]
  have hstep5 : ∀ me sn, step5_residual_added units (mp.map (fun p => p.2.1)) me sn = [] := by
    intro me sn
    rw [step5_residual_added, List.filterMap_eq_nil_iff]
    intro j hj
    rw [if_pos (hmp_cover_snd j (List.mem_range.mp hj))]
  rw [hsplits, hmerges, hstep1, hstep4, hstep5]
  rfl

/-- C3 (amended): comparing a document against an identical copy of itself
yields an empty changelog provided the similarity matrix of the self
comparison is exact on the diagonal and every cross similarity between two
distinct units stays below the split/merge per-unit threshold 0.35 (so
that no split or merge fires), under the greedy matcher and any match
threshold at most 1. -/
theorem claim3_self_compare_empty (arts : List ArticleJson)
    (simOf : List String → List String → ℕ → ℕ → ℚ) (thr : ℚ)
    (hthr : thr ≤ 1)
    (hdiag : ∀ i, i < (arts.flatMap extract_units).length →
      simOf (corpus_texts arts) (corpus_texts arts) i i = 1)
    (hoff : ∀ i j, i ≠ j →
      simOf (corpus_texts arts) (corpus_texts arts) i j < 35/100) :
    generate_mapping_model arts arts simOf global_greedy_matching thr = [] := by
  simp only [corpus_texts] at hdiag hoff
  simp only [generate_mapping_model]
  split_ifs with h
  · rfl
  · exact self_compare_empty _ _ thr hthr hdiag hoff

/-- Witness for C3 (amended) at a concrete one-unit document with the
identity similarity matrix. -/
theorem claim3_witness :
    generate_mapping_model [⟨some "a1", some "1", some "x", []⟩]
      [⟨some "a1", some "1", some "x", []⟩]
      (fun _ _ i j => if i = j then 1 else 0) global_greedy_matching MATCH_THRESHOLD = [] :=
  claim3_self_compare_empty [⟨some "a1", some "1", some "x", []⟩]
    (fun _ _ i j => if i = j then 1 else 0) MATCH_THRESHOLD
    (by norm_num [MATCH_THRESHOLD])
    (fun i _ => by simp)
    (fun i j hij => by simp [hij])

/-- C1 counterexample: with one old unit strongly matched to new unit 0
and still 0.4-similar to new unit 1, old index 0 is accepted as a match
(emitting `modified`) and is also flagged as a split (emitting `deleted`):
one old unit yields two changelog records. -/
theorem claim1_counterexample :
    0 ∈ matched_old_of (global_greedy_matching 1 2 cexSimSplit) MATCH_THRESHOLD ∧
    0 ∈ split_keys 1 2 cexSimSplit ∧
    countOld 0 (generate_entries [cexOldUnit] [cexNewUnitA, cexNewUnitB] cexSimSplit
      (global_greedy_matching 1 2 cexSimSplit) MATCH_THRESHOLD) = 2 ∧
    countOldDeleted 0 (generate_entries [cexOldUnit] [cexNewUnitA, cexNewUnitB] cexSimSplit
      (global_greedy_matching 1 2 cexSimSplit) MATCH_THRESHOLD) = 1 := by
  have hneq : normalize_for_compare (some "a") ≠ normalize_for_compare (some "b") := by decide
  have hmd : ("modified" : String) ≠ "deleted" := by decide
  refine ⟨?_, ?_, ?_, ?_⟩
  · rw [cex1_greedy]
    simp only [matched_old_of]
    rw [cex_mp]
    simp
  · simp only [split_keys]
    rw [cex_splits]
    simp
  · rw [cex1_greedy]
    simp only [generate_entries, cex_mp]
    norm_num [cex_splits, cex_merges, step1_modified, step2_split_deleted, step3_merge_added,
      step4_residual_deleted, step5_residual_added, cexOldUnit, cexNewUnitA, cexNewUnitB,
      countOld, modifiedEntry, deletedEntry, addedEntry, hneq, List.range_succ,
      List.filterMap_cons, List.filterMap_nil, List.filter_cons, List.filter_nil,
      List.flatMap_cons, List.flatMap_nil, List.mem_cons, List.not_mem_nil,
      decide_eq_true_eq]
  · rw [cex1_greedy]
    simp only [generate_entries, cex_mp]
    norm_num [cex_splits, cex_merges, step1_modified, step2_split_deleted, step3_merge_added,
      step4_residual_deleted, step5_residual_added, cexOldUnit, cexNewUnitA, cexNewUnitB,
      countOldDeleted, modifiedEntry, deletedEntry, addedEntry, hneq, hmd, List.range_succ,
      List.filterMap_cons, List.filterMap_nil, List.filter_cons, List.filter_nil,
      List.flatMap_cons, List.flatMap_nil, List.mem_cons, List.not_mem_nil,
      decide_eq_true_eq]

theorem cexw_greedy : global_greedy_matching 1 1 (fun _ _ => (9:ℚ)/10) = [(0, 0, 9/10)] := by
  norm_num [global_greedy_matching, List.range_succ, sortDescThird, List.insertionSort,
    List.orderedInsert, descThird, greedyOneToOne, List.filterMap_cons, List.filterMap_nil,
    List.flatMap_cons, List.flatMap_nil]

theorem cexw_no_split : 0 ∉ split_keys 1 1 (fun _ _ => (9:ℚ)/10) := by
  simp only [split_keys]
  norm_num [detect_splits, List.range_succ, sortDescSnd, List.insertionSort,
    List.orderedInsert, descSnd, SPLIT_UNIT_THRESH, SPLIT_SUM_THRESH, List.filterMap_cons,
    List.filterMap_nil, List.filter_cons, List.filter_nil, decide_eq_true_eq]

theorem cexw_no_merge : 0 ∉ merge_keys 1 1 (fun _ _ => (9:ℚ)/10) := by
  simp only [merge_keys]
  norm_num [detect_merges, List.range_succ, sortDescSnd, List.insertionSort,
    List.orderedInsert, descSnd, MERGE_UNIT_THRESH, MERGE_SUM_THRESH, List.filterMap_cons,
    List.filterMap_nil, List.filter_cons, List.filter_nil, decide_eq_true_eq]

theorem cexw_matched_old :
    0 ∈ matched_old_of (global_greedy_matching 1 1 (fun _ _ => (9:ℚ)/10)) MATCH_THRESHOLD := by
  rw [cexw_greedy]
  simp only [matched_old_of]
  rw [cex_mp]
  simp

theorem cexw_matched_new :
    0 ∈ matched_new_of (global_greedy_matching 1 1 (fun _ _ => (9:ℚ)/10)) MATCH_THRESHOLD := by
  rw [cexw_greedy]
  simp only [matched_new_of]
  rw [cex_mp]
  simp

/-- Witness for C1 (amended) on a concrete matched, non-split input. -/
theorem claim1_witness :
    countOld 0 (generate_entries [cexOldUnit] [cexNewUnitA] (fun _ _ => (9:ℚ)/10)
      (global_greedy_matching 1 1 (fun _ _ => (9:ℚ)/10)) MATCH_THRESHOLD) ≤ 1 ∧
    countOldDeleted 0 (generate_entries [cexOldUnit] [cexNewUnitA] (fun _ _ => (9:ℚ)/10)
      (global_greedy_matching 1 1 (fun _ _ => (9:ℚ)/10)) MATCH_THRESHOLD) = 0 := by
  constructor
  · exact (claim1_old_unit_single_classification [cexOldUnit] [cexNewUnitA]
      (fun _ _ => (9:ℚ)/10) (global_greedy_matching 1 1 (fun _ _ => (9:ℚ)/10))
      MATCH_THRESHOLD 0).1 (fun hc => cexw_no_split (by simpa using hc.2))
  · exact (claim1_old_unit_single_classification [cexOldUnit] [cexNewUnitA]
      (fun _ _ => (9:ℚ)/10) (global_greedy_matching 1 1 (fun _ _ => (9:ℚ)/10))
      MATCH_THRESHOLD 0).2 cexw_matched_old (by simpa using cexw_no_split)

/-- Witness for C2 (amended) on the same concrete matched, non-merge
input. -/
theorem claim2_witness :
    countNew 0 (generate_entries [cexOldUnit] [cexNewUnitA] (fun _ _ => (9:ℚ)/10)
      (global_greedy_matching 1 1 (fun _ _ => (9:ℚ)/10)) MATCH_THRESHOLD) ≤ 1 ∧
    countNewAdded 0 (generate_entries [cexOldUnit] [cexNewUnitA] (fun _ _ => (9:ℚ)/10)
      (global_greedy_matching 1 1 (fun _ _ => (9:ℚ)/10)) MATCH_THRESHOLD) = 0 := by
  constructor
  · exact (claim2_new_unit_single_classification [cexOldUnit] [cexNewUnitA]
      (fun _ _ => (9:ℚ)/10) (global_greedy_matching 1 1 (fun _ _ => (9:ℚ)/10))
      MATCH_THRESHOLD 0).1 (fun hc => cexw_no_merge (by simpa using hc.2))
  · exact (claim2_new_unit_single_classification [cexOldUnit] [cexNewUnitA]
      (fun _ _ => (9:ℚ)/10) (global_greedy_matching 1 1 (fun _ _ => (9:ℚ)/10))
      MATCH_THRESHOLD 0).2 cexw_matched_new (by simpa using cexw_no_merge)

theorem cex2_greedy : global_greedy_matching 2 1 cexSimMerge = [(0, 0, 9/10)] := by
  norm_num [global_greedy_matching, cexSimMerge, List.range_succ, sortDescThird,
    List.insertionSort, List.orderedInsert, descThird, greedyOneToOne, List.filterMap_cons,
    List.filterMap_nil, List.flatMap_cons, List.flatMap_nil, List.mem_cons, List.not_mem_nil]

theorem cex2_splits : detect_splits 2 1 cexSimMerge = [] := by
  norm_num [detect_splits, cexSimMerge, List.range_succ, sortDescSnd, List.insertionSort,
    List.orderedInsert, descSnd, SPLIT_UNIT_THRESH, SPLIT_SUM_THRESH, List.filterMap_cons,
    List.filterMap_nil, List.filter_cons, List.filter_nil, decide_eq_true_eq]

theorem cex2_merges : detect_merges 2 1 cexSimMerge = [(0, [(0, 9/10), (1, 2/5)])] := by
  norm_num [detect_merges, cexSimMerge, List.range_succ, sortDescSnd, List.insertionSort,
    List.orderedInsert, descSnd, MERGE_UNIT_THRESH, MERGE_SUM_THRESH, List.filterMap_cons,
    List.filterMap_nil, List.filter_cons, List.filter_nil, decide_eq_true_eq]

/-- C2 counterexample: with two old units resembling one new unit, new
index 0 is accepted as a match (emitting `modified`) and is also flagged
as a merge target (emitting `added`): one new unit yields two changelog
records. -/
theorem claim2_counterexample :
    0 ∈ matched_new_of (global_greedy_matching 2 1 cexSimMerge) MATCH_THRESHOLD ∧
    0 ∈ merge_keys 2 1 cexSimMerge ∧
    countNew 0 (generate_entries [cexOldUnit, cexNewUnitB] [cexNewUnitA] cexSimMerge
      (global_greedy_matching 2 1 cexSimMerge) MATCH_THRESHOLD) = 2 ∧
    countNewAdded 0 (generate_entries [cexOldUnit, cexNewUnitB] [cexNewUnitA] cexSimMerge
      (global_greedy_matching 2 1 cexSimMerge) MATCH_THRESHOLD) = 1 := by
  have hneq : normalize_for_compare (some "a") ≠ normalize_for_compare (some "b") := by decide
  have hma : ("modified" : String) ≠ "added" := by decide
  refine ⟨?_, ?_, ?_, ?_⟩
  · rw [cex2_greedy]
    simp only [matched_new_of]
    rw [cex_mp]
    simp
  · simp only [merge_keys]
    rw [cex2_merges]
    simp
  · rw [cex2_greedy]
    simp only [generate_entries, cex_mp]
    norm_num [cex2_splits, cex2_merges, step1_modified, step2_split_deleted,
      step3_merge_added, step4_residual_deleted, step5_residual_added, cexOldUnit,
      cexNewUnitA, cexNewUnitB, countNew, modifiedEntry, deletedEntry, addedEntry, hneq,
      List.range_succ, List.filterMap_cons, List.filterMap_nil, List.filter_cons,
      List.filter_nil, List.flatMap_cons, List.flatMap_nil, List.mem_cons,
      List.not_mem_nil, decide_eq_true_eq]
  · rw [cex2_greedy]
    simp only [generate_entries, cex_mp]
    norm_num [cex2_splits, cex2_merges, step1_modified, step2_split_deleted,
      step3_merge_added, step4_residual_deleted, step5_residual_added, cexOldUnit,
      cexNewUnitA, cexNewUnitB, countNewAdded, modifiedEntry, deletedEntry, addedEntry,
      hneq, hma, List.range_succ, List.filterMap_cons, List.filterMap_nil, List.filter_cons,
      List.filter_nil, List.flatMap_cons, List.flatMap_nil, List.mem_cons,
      List.not_mem_nil, decide_eq_true_eq]

theorem cex3_units : cexSelfArts.flatMap extract_units =
    [⟨some "a1", some "1", none, none, "a"⟩, ⟨some "a1", some "1", some "1", none, "b"⟩] := by
  decide

theorem cex3_greedy : global_greedy_matching 2 2 cexSelfSimFn = [(0, 0, 1), (1, 1, 1)] := by
  norm_num [global_greedy_matching, cexSelfSimFn, List.range_succ, sortDescThird,
    List.insertionSort, List.orderedInsert, descThird, greedyOneToOne, List.filterMap_cons,
    List.filterMap_nil, List.flatMap_cons, List.flatMap_nil, List.mem_cons, List.not_mem_nil]

theorem cex3_mp : matched_pairs_of [(0, 0, (1:ℚ)), (1, 1, 1)] MATCH_THRESHOLD
    = [(0, 0, 1), (1, 1, 1)] := by
  norm_num [matched_pairs_of, MATCH_THRESHOLD, sortDescThird, List.insertionSort,
    List.orderedInsert, descThird, keepMatched, List.mem_cons, List.not_mem_nil]

theorem cex3_splits : detect_splits 2 2 cexSelfSimFn
    = [(0, [(0, 1), (1, 2/5)]), (1, [(1, 1), (0, 2/5)])] := by
  norm_num [detect_splits, cexSelfSimFn, List.range_succ, sortDescSnd, List.insertionSort,
    List.orderedInsert, descSnd, SPLIT_UNIT_THRESH, SPLIT_SUM_THRESH, List.filterMap_cons,
    List.filterMap_nil, List.filter_cons, List.filter_nil, decide_eq_true_eq]

theorem cex3_merges : detect_merges 2 2 cexSelfSimFn
    = [(0, [(0, 1), (1, 2/5)]), (1, [(1, 1), (0, 2/5)])] := by
  norm_num [detect_merges, cexSelfSimFn, List.range_succ, sortDescSnd, List.insertionSort,
    List.orderedInsert, descSnd, MERGE_UNIT_THRESH, MERGE_SUM_THRESH, List.filterMap_cons,
    List.filterMap_nil, List.filter_cons, List.filter_nil, decide_eq_true_eq]

/-- C3 counterexample: comparing a two-unit document against an identical
copy of itself with a plausible self-similarity matrix (symmetric, ones on
the diagonal, cross similarity 0.4 between the article text and its
clause) produces a non-empty changelog: both units are reported deleted
(splits) and added (merges). -/
theorem claim3_counterexample :
    generate_mapping_model cexSelfArts cexSelfArts cexSelfSim global_greedy_matching
      MATCH_THRESHOLD ≠ [] ∧
    (∀ i, cexSelfSimFn i i = 1) ∧
    (∀ i j, cexSelfSimFn i j = cexSelfSimFn j i) ∧
    (∀ i j, 0 ≤ cexSelfSimFn i j ∧ cexSelfSimFn i j ≤ 1) := by
  refine ⟨?_, ?_, ?_, ?_⟩
  · simp only [generate_mapping_model, cexSelfSim]
    rw [cex3_units]
    rw [if_neg (by simp)]
    rw [show ([(⟨some "a1", some "1", none, none, "a"⟩ : TextUnit),
      ⟨some "a1", some "1", some "1", none, "b"⟩] : List TextUnit).length = 2 from rfl]
    rw [cex3_greedy]
    simp only [generate_entries]
    rw [show ([(⟨some "a1", some "1", none, none, "a"⟩ : TextUnit),
      ⟨some "a1", some "1", some "1", none, "b"⟩] : List TextUnit).length = 2 from rfl]
    rw [cex3_mp, cex3_splits, cex3_merges]
    norm_num [step1_modified, step2_split_deleted, step3_merge_added, step4_residual_deleted,
      step5_residual_added, modifiedEntry, deletedEntry, addedEntry, List.range_succ,
      List.filterMap_cons, List.filterMap_nil, List.flatMap_cons, List.flatMap_nil,
      List.mem_cons, List.not_mem_nil]
    exact List.cons_ne_nil _ _
  · intro i
    simp [cexSelfSimFn]
  · intro i j
    by_cases h : i = j
    · rw [h]
    · simp only [cexSelfSimFn]
      rw [if_neg h, if_neg (fun he => h he.symm)]
  · intro i j
    constructor <;> · simp only [cexSelfSimFn]; split_ifs <;> norm_num
